import Mathlib

/-!
# btkbdd: ASCII translation, HID keyboard state and session

A shallow embedding of `ascii2linux.c` and `keyb.c`.

* C `char` values are `Int` (a signed char lies in `-128..127`); a C string
  is a list of them, read up to its first NUL.
* `uint8_t` fields are `Nat`, reduced `% 256` where a store could overflow.
* `struct input_event` keeps its `type`, `code` and `value` fields (the
  timestamp is never read).
* The event buffer handed to `ascii_char` is the list of events written so
  far; its length is the C variable `ev_idx`.
* `linux2hid.h` is not among the sources: the table is a parameter
  `linux2hid : Nat → Nat` of the functions that read it.
* `session` runs against a `host` that answers `l2cap_connect` and `write`;
  every call made to the outside is recorded, in order, in a trace.
-/

namespace Btkbdd

/-! ## Constants of `linux/input.h` -/

def EV_KEY : Nat := 1

def KEY_RESERVED : Nat := 0
def KEY_ESC : Nat := 1
def KEY_1 : Nat := 2
def KEY_2 : Nat := 3
def KEY_3 : Nat := 4
def KEY_4 : Nat := 5
def KEY_5 : Nat := 6
def KEY_6 : Nat := 7
def KEY_7 : Nat := 8
def KEY_8 : Nat := 9
def KEY_9 : Nat := 10
def KEY_0 : Nat := 11
def KEY_MINUS : Nat := 12
def KEY_EQUAL : Nat := 13
def KEY_BACKSPACE : Nat := 14
def KEY_Q : Nat := 16
def KEY_W : Nat := 17
def KEY_E : Nat := 18
def KEY_R : Nat := 19
def KEY_T : Nat := 20
def KEY_Y : Nat := 21
def KEY_U : Nat := 22
def KEY_I : Nat := 23
def KEY_O : Nat := 24
def KEY_P : Nat := 25
def KEY_LEFTBRACE : Nat := 26
def KEY_RIGHTBRACE : Nat := 27
def KEY_ENTER : Nat := 28
def KEY_LEFTCTRL : Nat := 29
def KEY_A : Nat := 30
def KEY_S : Nat := 31
def KEY_D : Nat := 32
def KEY_F : Nat := 33
def KEY_G : Nat := 34
def KEY_H : Nat := 35
def KEY_J : Nat := 36
def KEY_K : Nat := 37
def KEY_L : Nat := 38
def KEY_SEMICOLON : Nat := 39
def KEY_APOSTROPHE : Nat := 40
def KEY_GRAVE : Nat := 41
def KEY_LEFTSHIFT : Nat := 42
def KEY_BACKSLASH : Nat := 43
def KEY_Z : Nat := 44
def KEY_X : Nat := 45
def KEY_C : Nat := 46
def KEY_V : Nat := 47
def KEY_B : Nat := 48
def KEY_N : Nat := 49
def KEY_M : Nat := 50
def KEY_COMMA : Nat := 51
def KEY_DOT : Nat := 52
def KEY_SLASH : Nat := 53
def KEY_RIGHTSHIFT : Nat := 54
def KEY_LEFTALT : Nat := 56
def KEY_SPACE : Nat := 57
def KEY_RIGHTCTRL : Nat := 97
def KEY_RIGHTALT : Nat := 100
def KEY_LEFTMETA : Nat := 125
def KEY_RIGHTMETA : Nat := 126

/-! ## `ascii2linux.c` -/

def MAX_ASCII_CHAR : Int := 127

def MAX_KEYS_PER_ASCII_CHAR : Nat := 2

/-- The macro `MAX_KEYS_PER_ASCII_CHAR * 2` of `ascii2linux.h`. -/
def MAX_EVENTS_PER_ASCII_CHAR : Int := 2 * 2

inductive shift_status where
  | no_shift
  | left_shift
  | right_shift
  deriving DecidableEq, Repr

open shift_status

/-- Key combination. -/
structure key_comb where
  key : Nat
  shift : shift_status
  deriving DecidableEq, Repr

/-- The designated initialisers of `linux_codes`, as (index, entry) pairs in
source order. -/
def linux_codes_init : List (Nat × key_comb) :=
  [ (10, key_comb.mk KEY_ENTER no_shift),          -- newline
    (27, key_comb.mk KEY_BACKSPACE no_shift),
    (32, key_comb.mk KEY_SPACE no_shift),          -- space
    (33, key_comb.mk KEY_1 right_shift),           -- !
    (34, key_comb.mk KEY_APOSTROPHE left_shift),   -- double quote
    (35, key_comb.mk KEY_3 right_shift),           -- #
    (36, key_comb.mk KEY_4 right_shift),           -- $
    (37, key_comb.mk KEY_5 right_shift),           -- %
    (38, key_comb.mk KEY_7 left_shift),            -- &
    (39, key_comb.mk KEY_APOSTROPHE no_shift),     -- single quote
    (40, key_comb.mk KEY_9 left_shift),            -- (
    (41, key_comb.mk KEY_0 left_shift),            -- )
    (42, key_comb.mk KEY_8 left_shift),            -- *
    (43, key_comb.mk KEY_EQUAL left_shift),        -- +
    (44, key_comb.mk KEY_COMMA no_shift),          -- ,
    (45, key_comb.mk KEY_MINUS no_shift),          -- -
    (46, key_comb.mk KEY_DOT no_shift),            -- .
    (47, key_comb.mk KEY_SLASH no_shift),          -- /
    (48, key_comb.mk KEY_0 no_shift),
    (49, key_comb.mk KEY_1 no_shift),
    (50, key_comb.mk KEY_2 no_shift),
    (51, key_comb.mk KEY_3 no_shift),
    (52, key_comb.mk KEY_4 no_shift),
    (53, key_comb.mk KEY_5 no_shift),
    (54, key_comb.mk KEY_6 no_shift),
    (55, key_comb.mk KEY_7 no_shift),
    (56, key_comb.mk KEY_8 no_shift),
    (57, key_comb.mk KEY_9 no_shift),
    (58, key_comb.mk KEY_SEMICOLON left_shift),    -- :
    (59, key_comb.mk KEY_SEMICOLON no_shift),      -- ;
    (60, key_comb.mk KEY_COMMA left_shift),        -- <
    (61, key_comb.mk KEY_EQUAL no_shift),          -- =
    (62, key_comb.mk KEY_DOT left_shift),          -- >
    (63, key_comb.mk KEY_SLASH left_shift),        -- ?
    (64, key_comb.mk KEY_2 right_shift),           -- @
    (65, key_comb.mk KEY_A right_shift),
    (66, key_comb.mk KEY_B right_shift),
    (67, key_comb.mk KEY_C right_shift),
    (68, key_comb.mk KEY_D right_shift),
    (69, key_comb.mk KEY_E right_shift),
    (70, key_comb.mk KEY_F right_shift),
    (71, key_comb.mk KEY_G right_shift),
    (72, key_comb.mk KEY_H left_shift),
    (73, key_comb.mk KEY_I left_shift),
    (74, key_comb.mk KEY_J left_shift),
    (75, key_comb.mk KEY_K left_shift),
    (76, key_comb.mk KEY_L left_shift),
    (77, key_comb.mk KEY_M left_shift),
    (78, key_comb.mk KEY_N left_shift),
    (79, key_comb.mk KEY_O left_shift),
    (80, key_comb.mk KEY_P left_shift),
    (81, key_comb.mk KEY_Q right_shift),
    (82, key_comb.mk KEY_R right_shift),
    (83, key_comb.mk KEY_S right_shift),
    (84, key_comb.mk KEY_T right_shift),
    (85, key_comb.mk KEY_U left_shift),
    (86, key_comb.mk KEY_V right_shift),
    (87, key_comb.mk KEY_W right_shift),
    (88, key_comb.mk KEY_X right_shift),
    (89, key_comb.mk KEY_Y left_shift),
    (90, key_comb.mk KEY_Z right_shift),
    (91, key_comb.mk KEY_LEFTBRACE no_shift),      -- [
    (92, key_comb.mk KEY_BACKSLASH no_shift),      -- backslash
    (93, key_comb.mk KEY_RIGHTBRACE no_shift),     -- ]
    (94, key_comb.mk KEY_6 left_shift),            -- ^
    (95, key_comb.mk KEY_MINUS left_shift),        -- _
    (96, key_comb.mk KEY_GRAVE no_shift),          -- grave accent
    (97, key_comb.mk KEY_A no_shift),
    (98, key_comb.mk KEY_B no_shift),
    (99, key_comb.mk KEY_C no_shift),
    (100, key_comb.mk KEY_D no_shift),
    (101, key_comb.mk KEY_E no_shift),
    (102, key_comb.mk KEY_F no_shift),
    (103, key_comb.mk KEY_G no_shift),
    (104, key_comb.mk KEY_H no_shift),
    (105, key_comb.mk KEY_I no_shift),
    (106, key_comb.mk KEY_J no_shift),
    (107, key_comb.mk KEY_K no_shift),
    (108, key_comb.mk KEY_L no_shift),
    (109, key_comb.mk KEY_M no_shift),
    (110, key_comb.mk KEY_N no_shift),
    (111, key_comb.mk KEY_O no_shift),
    (112, key_comb.mk KEY_P no_shift),
    (113, key_comb.mk KEY_Q no_shift),
    (114, key_comb.mk KEY_R no_shift),
    (115, key_comb.mk KEY_S no_shift),
    (116, key_comb.mk KEY_T no_shift),
    (117, key_comb.mk KEY_U no_shift),
    (118, key_comb.mk KEY_V no_shift),
    (119, key_comb.mk KEY_W no_shift),
    (120, key_comb.mk KEY_X no_shift),
    (121, key_comb.mk KEY_Y no_shift),
    (122, key_comb.mk KEY_Z no_shift),
    (123, key_comb.mk KEY_LEFTBRACE left_shift),   -- left curly bracket
    (124, key_comb.mk KEY_BACKSLASH left_shift),   -- |
    (125, key_comb.mk KEY_RIGHTBRACE left_shift),  -- right curly bracket
    (126, key_comb.mk KEY_GRAVE left_shift) ]      -- ~

/-- The table `linux_codes[MAX_ASCII_CHAR + 1]`: every index starts as
`{KEY_RESERVED}` (shift zero-initialised to `no_shift`) and the designated
initialisers override it. -/
def linux_codes (idx : Nat) : key_comb :=
  match linux_codes_init.lookup idx with
  | some comb => comb
  | none => ⟨KEY_RESERVED, no_shift⟩

/-- The fields of `struct input_event` that the program reads or writes. -/
structure input_event_t where
  type : Nat
  code : Nat
  value : Int
  deriving DecidableEq, Repr

def fill_event (key : Nat) (value : Int) : input_event_t :=
  { type := EV_KEY, code := key, value := value }

/-- The loop of `fill_key_presses` over the keys not yet visited. The result
is the C return value `key_idx == num_of_keys` and the buffer. -/
def fill_key_presses (max_events : Int) :
    List Nat → List input_event_t → Bool × List input_event_t
  | [], events => (true, events)
  | k :: ks, events =>
    if (events.length : Int) < max_events then
      fill_key_presses max_events ks (events ++ [fill_event k 1])
    else (false, events)

/-- The loop of `fill_key_releases`, which walks the keys from the last one
down to index 0; the argument is the key list already reversed. The result
is the C return value `key_idx < 0` and the buffer. -/
def fill_key_releases_from (max_events : Int) :
    List Nat → List input_event_t → Bool × List input_event_t
  | [], events => (true, events)
  | k :: ks, events =>
    if (events.length : Int) < max_events then
      fill_key_releases_from max_events ks (events ++ [fill_event k 0])
    else (false, events)

def fill_key_releases (max_events : Int) (keys : List Nat)
    (events : List input_event_t) : Bool × List input_event_t :=
  fill_key_releases_from max_events keys.reverse events

/-- The key list built by `gen_keys`: the shift key, if any, then the base
key. Its length is the C return value `num_of_keys`. -/
def gen_keys (comb : key_comb) : List Nat :=
  match comb.shift with
  | left_shift => [KEY_LEFTSHIFT, comb.key]
  | right_shift => [KEY_RIGHTSHIFT, comb.key]
  | no_shift => [comb.key]

def translatable (input : Int) : Bool :=
  decide (input ≥ 0) && decide (input ≤ MAX_ASCII_CHAR) &&
    decide ((linux_codes input.toNat).key ≠ KEY_RESERVED)

/-- Process an ASCII char: the return value (event count or `-1`) and the
events written to the buffer. -/
def ascii_char (max_events : Int) (input : Int) : Int × List input_event_t :=
  if !translatable input then (-1, [])
  else
    let keys := gen_keys (linux_codes input.toNat)
    let p := fill_key_presses max_events keys []
    if p.1 then
      let r := fill_key_releases max_events keys p.2
      if r.1 then ((r.2.length : Int), r.2) else (-1, r.2)
    else (-1, p.2)

/-! ## `keyb.c`: the keyboard state -/

/-- Modelled from the spec: `hid.h` is not among the sources. The spec gives
each of the 8 modifier roles "a fixed bit position in a single status byte";
the values are the modifier bits of the HID boot keyboard report. This one
is left control, bit 0. -/
def HIDP_LEFTCTRL : Nat := 0x01

/-- Modelled from the spec: modifier bit of `hid.h`, left shift, bit 1. -/
def HIDP_LEFTSHIFT : Nat := 0x02

/-- Modelled from the spec: modifier bit of `hid.h`, left alt, bit 2. -/
def HIDP_LEFTALT : Nat := 0x04

/-- Modelled from the spec: modifier bit of `hid.h`, left meta/GUI, bit 3. -/
def HIDP_LEFTGUI : Nat := 0x08

/-- Modelled from the spec: modifier bit of `hid.h`, right control, bit 4. -/
def HIDP_RIGHTCTRL : Nat := 0x10

/-- Modelled from the spec: modifier bit of `hid.h`, right shift, bit 5. -/
def HIDP_RIGHTSHIFT : Nat := 0x20

/-- Modelled from the spec: modifier bit of `hid.h`, right alt, bit 6. -/
def HIDP_RIGHTALT : Nat := 0x40

/-- Modelled from the spec: modifier bit of `hid.h`, right meta/GUI, bit 7. -/
def HIDP_RIGHTGUI : Nat := 0x80

/-- Modelled from the spec: `hid.h` is not among the sources. The report
type byte is the "transaction-type|input-report-class constant"; with the
Bluetooth HID values it is `0xa0 | 0x01 = 0xa1`, the first byte of the
handshake messages as well. This is the transaction type. -/
def HIDP_TRANS_DATA : Nat := 0xa0

/-- Modelled from the spec: the input-report class of `hid.h`. -/
def HIDP_DATA_RTYPE_INPUT : Nat := 0x01

/-- A packet we are sending to host after a keypress (`uint8_t` fields;
`key` stands for `uint8_t key[6]`). -/
structure key_report where
  type : Nat
  report : Nat
  mods : Nat
  reserved : Nat
  key : List Nat
  deriving DecidableEq, Repr

/-- Keyboard status. -/
structure status where
  report : key_report
  deriving DecidableEq, Repr

/-- The `switch (event->code)` of `input_event`; `mod` starts as 0. -/
def modifier_switch (code : Nat) : Nat :=
  if code = KEY_LEFTCTRL then HIDP_LEFTCTRL
  else if code = KEY_LEFTSHIFT then HIDP_LEFTSHIFT
  else if code = KEY_LEFTALT then HIDP_LEFTALT
  else if code = KEY_LEFTMETA then HIDP_LEFTGUI
  else if code = KEY_RIGHTCTRL then HIDP_RIGHTCTRL
  else if code = KEY_RIGHTSHIFT then HIDP_RIGHTSHIFT
  else if code = KEY_RIGHTALT then HIDP_RIGHTALT
  else if code = KEY_RIGHTMETA then HIDP_RIGHTGUI
  else 0

/-- The loop `for (i = 0; i < 6; i++)` of `input_event` over `key[6]`. The
first argument counts the iterations still to run (6 at the start, 0 when
the loop condition fails), so the body runs at index `i = 6 - (remaining + 1)`;
`code` is the `int` read from `linux2hid`, and a store into a `uint8_t` slot
keeps its low 8 bits. -/
def key_loop (code : Nat) (value : Int) : Nat → List Nat → List Nat
  | 0, key => key
  | remaining + 1, key =>
    let i := 5 - remaining
    -- Remove key if already enabled
    let key1 := if key.getD i 0 = code then key.set i 0 else key
    -- Add key if it was pushed
    if value ≠ 0 ∧ key1.getD i 0 = 0 then
      key1.set i (code % 256)    -- break
    else
      -- Shift the rest
      let key2 :=
        if i < 5 ∧ key1.getD i 0 = 0 then
          (key1.set i (key1.getD (i + 1) 0)).set (i + 1) 0
        else key1
      key_loop code value remaining key2

/-- Process an evdev event: the return value and the updated status.
`linux2hid` is the table of `linux2hid.h`, which is not among the sources
and is taken as a parameter. `mods &= ~mod` is taken on the 8 bits of the
`uint8_t` field. -/
def input_event (linux2hid : Nat → Nat) (st : status) (event : input_event_t)
    (_ctrl _intr : Int) : Int × status :=
  if event.type ≠ EV_KEY then (0, st)
  else if event.code ≥ 256 then (0, st)
  else
    let mod := modifier_switch event.code
    if mod ≠ 0 then
      if event.value ≠ 0 then
        (1, { report := { st.report with mods := (st.report.mods ||| mod) % 256 } })
      else
        (1, { report := { st.report with mods := st.report.mods &&& (255 ^^^ mod) } })
    else
      let code := linux2hid event.code
      (1, { report := { st.report with key := key_loop code event.value 6 st.report.key } })

/-- The keyboard state set up at the start of `session`. -/
def initial_status : status :=
  { report :=
    { type := HIDP_TRANS_DATA ||| HIDP_DATA_RTYPE_INPUT,
      report := 0x01,
      mods := 0,
      reserved := 0,
      key := [0, 0, 0, 0, 0, 0] } }

/-- The bytes of the packed `struct key_report`, as `write` sends them. -/
def report_bytes (r : key_report) : List Nat :=
  [r.type, r.report, r.mods, r.reserved] ++ r.key

/-- Feed a list of events to `input_event`, in order. -/
def apply_events (linux2hid : Nat → Nat) (st : status) :
    List input_event_t → status
  | [] => st
  | ev :: evs => apply_events linux2hid (input_event linux2hid st ev (-1) (-1)).2 evs

/-- A sample of the table of `linux2hid.h` for concrete evaluation: the USB
HID usage ids of the letter keys, Enter and Backspace; 0 elsewhere. -/
def sample_linux2hid (code : Nat) : Nat :=
  if code = KEY_A then 4
  else if code = KEY_B then 5
  else if code = KEY_C then 6
  else if code = KEY_D then 7
  else if code = KEY_E then 8
  else if code = KEY_F then 9
  else if code = KEY_G then 10
  else if code = KEY_H then 11
  else if code = KEY_I then 12
  else if code = KEY_ENTER then 40
  else if code = KEY_BACKSPACE then 42
  else 0

/-! ## The slot array as an ordered list -/

/-- The slot loop read as a scan of the slots still to visit: the head is
`key[i]`, and the loop only ever touches `key[i]` and `key[i+1]`. Used to
reason about `key_loop`. -/
def scan (code : Nat) (value : Int) : List Nat → List Nat
  | [] => []
  | [x] =>
    if value ≠ 0 ∧ (x = code ∨ x = 0) then [code % 256]
    else if x = code then [0] else [x]
  | x :: y :: rest =>
    if value ≠ 0 ∧ (x = code ∨ x = 0) then (code % 256) :: y :: rest
    else if x = code ∨ x = 0 then y :: scan code value (0 :: rest)
    else x :: scan code value (y :: rest)
termination_by l => l.length

/-- The six slots holding the codes `occ` from index 0, zero elsewhere. -/
def slots (occ : List Nat) : List Nat :=
  occ ++ List.replicate (6 - occ.length) 0

/-- The ordered list model of a press: nothing if held, append if there is
room, dropped otherwise. -/
def press_model (occ : List Nat) (X : Nat) : List Nat :=
  if X ∈ occ then occ else if occ.length < 6 then occ ++ [X] else occ

/-- The ordered list model of a release: remove and close the gap. -/
def release_model (occ : List Nat) (X : Nat) : List Nat :=
  occ.erase X

/-- The held codes form a duplicate-free list of non-zero codes, at most 6. -/
def HeldOk (occ : List Nat) : Prop :=
  occ.length ≤ 6 ∧ 0 ∉ occ ∧ occ.Nodup

/-- No non-zero usage code sits in two of the 6 slots. -/
def no_duplicate_slots (key : List Nat) : Prop :=
  ∀ j < 6, ∀ i < j, key.getD i 0 ≠ 0 → key.getD i 0 ≠ key.getD j 0

/-- The occupied slots are contiguous from index 0: a slot after an empty
slot is empty. -/
def contiguous_slots (key : List Nat) : Prop :=
  ∀ j < 6, ∀ i < j, key.getD i 0 = 0 → key.getD j 0 = 0

/-! ## Modifier keys -/

/-- The event codes of the 8 modifier keys with the bit position of each in
the modifier byte. -/
def modifier_bits : List (Nat × Nat) :=
  [(KEY_LEFTCTRL, 0), (KEY_LEFTSHIFT, 1), (KEY_LEFTALT, 2), (KEY_LEFTMETA, 3),
   (KEY_RIGHTCTRL, 4), (KEY_RIGHTSHIFT, 5), (KEY_RIGHTALT, 6), (KEY_RIGHTMETA, 7)]

/-! ## `keyb.c`: the session -/

/-- Modelled from the spec: `hid.h` is not among the sources. The "two
fixed, profile-defined channel identifiers" of the Bluetooth HID profile:
this one is the PSM of HID control. -/
def L2CAP_PSM_HIDP_CTRL : Nat := 0x11

/-- Modelled from the spec: the PSM of HID interrupt of `hid.h`. -/
def L2CAP_PSM_HIDP_INTR : Nat := 0x13

/-- A Bluetooth address (`bdaddr_t`, 6 bytes) as a number; `BDADDR_ANY` is
the all-zero address. -/
def BDADDR_ANY : Nat := 0

/-- The library call `bacmp` (a `memcmp` of the two addresses): 0 exactly
when they are equal. -/
def bacmp (a b : Nat) : Int := if a = b then 0 else 1

/-- The calls `session` and `hello` make to the outside, in program order,
each with the value it returned. -/
inductive io_call where
  | l2cap_connect (psm : Nat) (ret : Int)
  | write (fd : Int) (buf : List Nat) (ret : Int)
  | sleep (seconds : Nat)
  | usleep (usec : Nat)
  | close (fd : Int)
  deriving DecidableEq, Repr

/-- The outside world: what `l2cap_connect` (source, target, psm) and
`write` (fd, buffer) return, given the calls made so far. `l2cap_connect`
is code of the repository outside the given sources; only its result (a
descriptor or `-1`) matters here. -/
structure host where
  l2cap_connect : List io_call → Nat → Nat → Nat → Int
  write : List io_call → Int → List Nat → Int

/-- The local variables of `session` that change while it runs, and the
calls made so far. -/
structure session_state where
  control : Int
  intr : Int
  st : status
  trace : List io_call
  deriving DecidableEq, Repr

/-- Handshake with the host: the return value and the calls made. -/
def hello (h : host) (control : Int) (trace : List io_call) : Int × List io_call :=
  let r1 := h.write trace control [0xa1, 0x13, 0x03]
  let t1 := trace ++ [io_call.write control [0xa1, 0x13, 0x03] r1]
  if r1 ≠ 3 then (-1, t1)
  else
    let r2 := h.write t1 control [0xa1, 0x13, 0x02]
    let t2 := t1 ++ [io_call.write control [0xa1, 0x13, 0x02] r2]
    if r2 ≠ 3 then (-1, t2)
    else (0, t2 ++ [io_call.sleep 1])

/-- The body of `if (control == -1) { ... }` in `session`. The Boolean is
true when the body was left by one of its `break` statements. -/
def connect_host (h : host) (src tgt : Nat) (s : session_state) : session_state × Bool :=
  -- Noone to talk to?
  if bacmp tgt BDADDR_ANY = 0 then (s, true)
  else
    let control := h.l2cap_connect s.trace src tgt L2CAP_PSM_HIDP_CTRL
    let t1 := s.trace ++ [io_call.l2cap_connect L2CAP_PSM_HIDP_CTRL control]
    if control = -1 then ({ s with control := control, trace := t1 }, true)
    else
      let intr := h.l2cap_connect t1 src tgt L2CAP_PSM_HIDP_INTR
      let t2 := t1 ++ [io_call.l2cap_connect L2CAP_PSM_HIDP_INTR intr]
      if intr = -1 then
        ({ s with control := -1, intr := intr, trace := t2 ++ [io_call.close control] }, true)
      else
        let hr := hello h control t2
        ({ s with control := control, intr := intr, trace := hr.2 }, decide (hr.1 = -1))

/-- The loop `for (i = 0; i < num_of_events; i++)` of `session` over the
events of one character, from index `i` on. A `break` ends this loop only:
the function returns the state, and the caller goes on with the next
character. -/
def event_loop (h : host) (linux2hid : Nat → Nat) (src tgt : Nat)
    (token_idx char_idx : Nat) : Nat → List input_event_t → session_state → session_state
  | _, [], s => s
  | i, ev :: evs, s =>
    -- Read the keyboard event and update status
    let r := input_event linux2hid s.st ev s.control s.intr
    let s1 := { s with st := r.2 }
    if r.1 = 0 then event_loop h linux2hid src tgt token_idx char_idx (i + 1) evs s1
    else
      let c := if s1.control = -1 then connect_host h src tgt s1 else (s1, false)
      if c.2 then c.1
      else
        let s2 := c.1
        -- Simulate a 200 ms delay.
        let t3 :=
          if token_idx > 0 ∨ char_idx > 0 ∨ i > 0 then s2.trace ++ [io_call.usleep 200000]
          else s2.trace
        -- Send the packet to the host.
        let w := h.write t3 s2.intr (report_bytes s2.st.report)
        let s3 := { s2 with
          trace := t3 ++ [io_call.write s2.intr (report_bytes s2.st.report) w] }
        if w ≤ 0 then s3
        else event_loop h linux2hid src tgt token_idx char_idx (i + 1) evs s3

/-- The events of one character that `session` walks through: the first
`num_of_events` entries of the buffer (none when `ascii_char` returns -1). -/
def char_events (c : Int) : List input_event_t :=
  (ascii_char MAX_EVENTS_PER_ASCII_CHAR c).2.take
    (ascii_char MAX_EVENTS_PER_ASCII_CHAR c).1.toNat

/-- The loop `for (in_char = tokens[token_idx]; *in_char; in_char++)` over
the characters of one token; `char_idx` is `in_char - tokens[token_idx]`.
The loop ends at the first NUL (or at the end of the list, where the
terminating NUL of the C string sits). -/
def char_loop (h : host) (linux2hid : Nat → Nat) (src tgt : Nat) (token_idx : Nat) :
    Nat → List Int → session_state → session_state
  | _, [], s => s
  | char_idx, c :: cs, s =>
    if c = 0 then s
    else
      char_loop h linux2hid src tgt token_idx (char_idx + 1) cs
        (event_loop h linux2hid src tgt token_idx char_idx 0 (char_events c) s)

/-- The loop `for (token_idx = 0; token_idx < num_of_tokens; token_idx++)`. -/
def token_loop (h : host) (linux2hid : Nat → Nat) (src tgt : Nat) :
    Nat → List (List Int) → session_state → session_state
  | _, [], s => s
  | token_idx, tok :: toks, s =>
    token_loop h linux2hid src tgt (token_idx + 1) toks
      (char_loop h linux2hid src tgt token_idx 0 tok s)

/-- The activation sequence: `memset (activation, 27, 10)`. -/
def activation : List Int := List.replicate 10 27

/-- Dispatch the work: the final state, whose trace holds every call made,
the closing ones included. -/
def session (h : host) (linux2hid : Nat → Nat) (src tgt : Nat) (input : List Int) :
    session_state :=
  let tokens := [activation, input, [10]]
  let s0 : session_state :=
    { control := -1, intr := -1, st := initial_status, trace := [] }
  let s1 := token_loop h linux2hid src tgt 0 tokens s0
  let t1 := if s1.control ≠ -1 then s1.trace ++ [io_call.close s1.control] else s1.trace
  let t2 := if s1.intr ≠ -1 then t1 ++ [io_call.close s1.intr] else t1
  { s1 with trace := t2 }

/-! ## Sample hosts and expected call traces -/

/-- The number of `l2cap_connect` calls in a trace. -/
def connect_count : List io_call → Nat
  | [] => 0
  | io_call.l2cap_connect _ _ :: t => connect_count t + 1
  | _ :: t => connect_count t

/-- The number of `write` calls in a trace. -/
def write_count : List io_call → Nat
  | [] => 0
  | io_call.write _ _ _ :: t => write_count t + 1
  | _ :: t => write_count t

/-- A host on which every call succeeds: the n-th `l2cap_connect` returns
descriptor `3 + n` and every `write` sends the whole buffer. -/
def good_host : host :=
  { l2cap_connect := fun t _ _ _ => 3 + (connect_count t : Int),
    write := fun _ _ buf => (buf.length : Int) }

/-- A host on which the first `l2cap_connect` fails and every later call
succeeds. -/
def first_connect_fails : host :=
  { l2cap_connect := fun t _ _ _ => if connect_count t = 0 then -1 else 3 + (connect_count t : Int),
    write := fun _ _ buf => (buf.length : Int) }

/-- A host on which the connects succeed, the first `write` (the first
handshake message) fails and every later `write` succeeds. -/
def first_write_fails : host :=
  { l2cap_connect := fun t _ _ _ => 3 + (connect_count t : Int),
    write := fun t _ buf => if write_count t = 0 then -1 else (buf.length : Int) }

/-- The report bytes after each event of a list, applied in order from
`st`. -/
def snapshots (linux2hid : Nat → Nat) (st : status) : List input_event_t → List (List Nat)
  | [] => []
  | ev :: evs =>
    report_bytes (input_event linux2hid st ev (-1) (-1)).2.report ::
      snapshots linux2hid (input_event linux2hid st ev (-1) (-1)).2 evs

/-- The characters of a C string: those before its first NUL. -/
def c_string (input : List Int) : List Int :=
  input.takeWhile (fun c => decide (c ≠ 0))

/-- The character stream of a session: activation sequence, payload,
newline. -/
def stream (input : List Int) : List Int :=
  activation ++ c_string input ++ [10]

/-- The calls that send a list of reports on descriptor `intr` when every
write is complete: each report is preceded by a 200 ms sleep. -/
def paced_writes (intr : Int) (reports : List (List Nat)) : List io_call :=
  reports.flatMap (fun r => [io_call.usleep 200000, io_call.write intr r (r.length : Int)])

/-- The calls that send a list of reports from the start of a session: the
first one goes out without a sleep. -/
def report_calls (intr : Int) : List (List Nat) → List io_call
  | [] => []
  | r :: rs => io_call.write intr r (r.length : Int) :: paced_writes intr rs

/-- The calls that open the two channels and shake hands, when all of them
succeed. -/
def opening_calls (control intr : Int) : List io_call :=
  [io_call.l2cap_connect L2CAP_PSM_HIDP_CTRL control,
   io_call.l2cap_connect L2CAP_PSM_HIDP_INTR intr,
   io_call.write control [0xa1, 0x13, 0x03] 3,
   io_call.write control [0xa1, 0x13, 0x02] 3,
   io_call.sleep 1]

/-- The descriptor the first `l2cap_connect` of a session returns. -/
def first_control (h : host) (src tgt : Nat) : Int :=
  h.l2cap_connect [] src tgt L2CAP_PSM_HIDP_CTRL

/-- The descriptor the second `l2cap_connect` of a session returns. -/
def first_intr (h : host) (src tgt : Nat) : Int :=
  h.l2cap_connect [io_call.l2cap_connect L2CAP_PSM_HIDP_CTRL (first_control h src tgt)]
    src tgt L2CAP_PSM_HIDP_INTR

/-- All the events of a session's character stream, in order. -/
def stream_events (input : List Int) : List input_event_t :=
  (stream input).flatMap char_events

/-- The keyboard state with modifier byte `mods` and at most one key, with
usage code `k`, in slot 0. -/
def kb (mods k : Nat) : status :=
  { report := { type := 0xa1, report := 0x01, mods := mods, reserved := 0,
                key := [k, 0, 0, 0, 0, 0] } }

/-! ## More sample hosts and reports -/

/-- A host on which the connects and the two handshake writes succeed, the
third `write` (the first report) fails and every later `write` succeeds. -/
def first_report_fails : host :=
  { l2cap_connect := fun t _ _ _ => 3 + (connect_count t : Int),
    write := fun t _ buf => if write_count t = 2 then -1 else (buf.length : Int) }

/-- The all-released report: no modifier, no key. -/
def released_report : List Nat := [0xa1, 0x01, 0, 0, 0, 0, 0, 0, 0, 0]

/-- The report with no modifier and the single usage code `k` in slot 0. -/
def single_key_report (k : Nat) : List Nat := [0xa1, 0x01, 0, 0, k, 0, 0, 0, 0, 0]

/-- The codes held in the slots: the leading non-zero entries. -/
def held_codes (key : List Nat) : List Nat :=
  key.takeWhile (fun k => decide (k ≠ 0))

/-! ## Rules on traces: channels, handshake, pacing -/

/-- What a property of the session state needs in order to hold all along
a run: it does not look at the keyboard status, it survives the connect
block (which, when not left by `break`, leaves the session connected), and
it survives a report write, paced or not, of a connected session. -/
structure run_invariant (h : host) (src tgt : Nat) (Inv : session_state → Prop) : Prop where
  status_change : ∀ (s : session_state) (st2 : status), Inv s →
    Inv { control := s.control, intr := s.intr, st := st2, trace := s.trace }
  connect : ∀ s : session_state, s.control = -1 → Inv s →
    Inv (connect_host h src tgt s).1 ∧
      ((connect_host h src tgt s).2 = false → (connect_host h src tgt s).1.control ≠ -1)
  report : ∀ (s : session_state) (t3 : List io_call) (w : Int), s.control ≠ -1 → Inv s →
    (t3 = s.trace ∨ t3 = s.trace ++ [io_call.usleep 200000]) →
    Inv { control := s.control, intr := s.intr, st := s.st,
          trace := t3 ++ [io_call.write s.intr (report_bytes s.st.report) w] }

/-- The two handshake messages of `hello`. -/
def is_handshake (buf : List Nat) : Bool :=
  buf == [0xa1, 0x13, 0x03] || buf == [0xa1, 0x13, 0x02]

/-- The channels open after a trace, each as (descriptor, PSM), starting
from the open channels `o`. An `l2cap_connect` that returns other than -1
opens a channel; a `close` must name an open descriptor and closes one
channel with it; a write of anything but a handshake message (a report)
must go to an open interrupt channel. The result is `none` as soon as a
call breaks one of the two rules. -/
def channels_after : List (Int × Nat) → List io_call → Option (List (Int × Nat))
  | o, [] => some o
  | o, io_call.l2cap_connect psm ret :: t =>
    if ret = -1 then channels_after o t else channels_after (o ++ [(ret, psm)]) t
  | o, io_call.close fd :: t =>
    if o.any (fun e => e.1 == fd) then channels_after (o.eraseP (fun e => e.1 == fd)) t
    else none
  | o, io_call.write fd buf _ :: t =>
    if is_handshake buf then channels_after o t
    else if (fd, L2CAP_PSM_HIDP_INTR) ∈ o then channels_after o t
    else none
  | o, io_call.sleep _ :: t => channels_after o t
  | o, io_call.usleep _ :: t => channels_after o t

/-- The state of a session between two events, as far as its channels go:
either nothing is open and both variables are -1, or exactly the control
and the interrupt channel held in the two variables are open. -/
def channels_inv (s : session_state) : Prop :=
  (s.control = -1 ∧ s.intr = -1 ∧ channels_after [] s.trace = some []) ∨
  (s.control ≠ -1 ∧ s.intr ≠ -1 ∧
    channels_after [] s.trace =
      some [(s.control, L2CAP_PSM_HIDP_CTRL), (s.intr, L2CAP_PSM_HIDP_INTR)])

/-- What a trace has done so far about the handshake: the control channels
open, how often each of the two handshake messages was written, and how
many reports (writes of anything else) were written. -/
structure handshake_state where
  control_open : List Int
  first : Nat
  second : Nat
  reports : Nat
  deriving DecidableEq, Repr

/-- The handshake state after a trace, or `none` as soon as a handshake
write breaks a rule: `A1 13 03` must go to an open control channel, before
any other handshake write and before any report; `A1 13 02` must go to an
open control channel, after the one `A1 13 03`, not a second time, and
before any report. -/
def handshake_after : handshake_state → List io_call → Option handshake_state
  | s, [] => some s
  | s, io_call.l2cap_connect psm ret :: t =>
    if ret ≠ -1 ∧ psm = L2CAP_PSM_HIDP_CTRL then
      handshake_after { s with control_open := s.control_open ++ [ret] } t
    else handshake_after s t
  | s, io_call.close fd :: t =>
    handshake_after { s with control_open := s.control_open.erase fd } t
  | s, io_call.write fd buf _ :: t =>
    if buf = [0xa1, 0x13, 0x03] then
      if fd ∈ s.control_open ∧ s.first = 0 ∧ s.second = 0 ∧ s.reports = 0 then
        handshake_after { s with first := 1 } t
      else none
    else if buf = [0xa1, 0x13, 0x02] then
      if fd ∈ s.control_open ∧ s.first = 1 ∧ s.second = 0 ∧ s.reports = 0 then
        handshake_after { s with second := 1 } t
      else none
    else handshake_after { s with reports := s.reports + 1 } t
  | s, io_call.sleep _ :: t => handshake_after s t
  | s, io_call.usleep _ :: t => handshake_after s t

/-- Nothing open, nothing written. -/
def handshake_start : handshake_state :=
  { control_open := [], first := 0, second := 0, reports := 0 }

/-- The state of a session between two events, as far as the handshake
goes: while disconnected nothing was written and no control channel is
open; once connected the trace obeys the handshake rules. -/
def handshake_inv (s : session_state) : Prop :=
  (s.control = -1 ∧ handshake_after handshake_start s.trace = some handshake_start) ∨
  (s.control ≠ -1 ∧ ∃ hs, handshake_after handshake_start s.trace = some hs ∧
    hs.first ≤ 1 ∧ hs.second ≤ 1)

/-- A call that is neither a handshake write nor anything the handshake
rules look at: a report write, a sleep or a close. -/
def quiet_call : io_call → Prop
  | io_call.write _ buf _ => buf ≠ [0xa1, 0x13, 0x03] ∧ buf ≠ [0xa1, 0x13, 0x02]
  | io_call.l2cap_connect _ _ => False
  | _ => True

/-- For each report write of a trace (a write of anything but a handshake
message), in order: the `usleep` durations, in microseconds, since the
write before it (or since the start of the trace). The first argument is
the list gathered so far. -/
def report_delays : List Nat → List io_call → List (List Nat)
  | _, [] => []
  | acc, io_call.usleep n :: t => report_delays (acc ++ [n]) t
  | acc, io_call.write _ buf _ :: t =>
    if is_handshake buf then report_delays [] t else acc :: report_delays [] t
  | acc, io_call.l2cap_connect _ _ :: t => report_delays acc t
  | acc, io_call.sleep _ :: t => report_delays acc t
  | acc, io_call.close _ :: t => report_delays acc t

/-- A host on which the connects and the two handshake writes succeed, the
third `write` (the first report) is short, 5 bytes, and every later `write`
is complete. -/
def first_report_short : host :=
  { l2cap_connect := fun t _ _ _ => 3 + (connect_count t : Int),
    write := fun t _ buf => if write_count t = 2 then 5 else (buf.length : Int) }

/-- A host on which the connects succeed and every `write` is short: it
sends 2 bytes. -/
def every_write_short : host :=
  { l2cap_connect := fun t _ _ _ => 3 + (connect_count t : Int),
    write := fun _ _ _ => 2 }

/-! ## Translation and event sequencing: lemmas -/

set_option maxRecDepth 100000 in
theorem translatable_table :
    ∀ n : Fin 128, translatable (n.val : Int) =
      decide (n.val = 10 ∨ n.val = 27 ∨ (32 ≤ n.val ∧ n.val ≤ 126)) := by
  decide

theorem translatable_iff (c : Int) :
    translatable c = true ↔ (c = 10 ∨ c = 27 ∨ (32 ≤ c ∧ c ≤ 126)) := by
  by_cases hc : 0 ≤ c ∧ c ≤ 127
  · obtain ⟨n, rfl⟩ := Int.eq_ofNat_of_zero_le hc.1
    have hn : n < 128 := by omega
    have h := translatable_table ⟨n, hn⟩
    simp only at h
    rw [h]
    simp only [decide_eq_true_eq]
    omega
  · have hf : translatable c = false := by
      unfold translatable MAX_ASCII_CHAR
      by_cases h0 : 0 ≤ c
      · have : ¬ c ≤ 127 := fun h => hc ⟨h0, h⟩
        simp [this]
      · simp [h0]
    rw [hf]
    constructor
    · intro h; cases h
    · intro h; exfalso; omega

theorem fill_four (c : Int) (h : translatable c = true) :
    ascii_char 4 c =
      (((2 * (gen_keys (linux_codes c.toNat)).length : Nat) : Int),
        (gen_keys (linux_codes c.toNat)).map (fun k => fill_event k 1) ++
        (gen_keys (linux_codes c.toNat)).reverse.map (fun k => fill_event k 0)) := by
  unfold ascii_char
  rw [h]
  cases hs : (linux_codes c.toNat).shift <;>
    simp [gen_keys, hs, fill_key_presses, fill_key_releases, fill_key_releases_from]

/-! ## The slot loop as a list scan -/

theorem getD_append_here (pre : List Nat) (x : Nat) (rest : List Nat) :
    (pre ++ x :: rest).getD pre.length 0 = x := by
  induction pre with
  | nil => rfl
  | cons a pre ih => simpa using ih

theorem set_append_here (pre : List Nat) (x v : Nat) (rest : List Nat) :
    (pre ++ x :: rest).set pre.length v = pre ++ v :: rest := by
  induction pre with
  | nil => rfl
  | cons a pre ih => simp [ih]

theorem getD_append_next (pre : List Nat) (x y : Nat) (rest : List Nat) :
    (pre ++ x :: y :: rest).getD (pre.length + 1) 0 = y := by
  induction pre with
  | nil => rfl
  | cons a pre ih => simpa using ih

theorem set_append_next (pre : List Nat) (x y v : Nat) (rest : List Nat) :
    (pre ++ x :: y :: rest).set (pre.length + 1) v = pre ++ x :: v :: rest := by
  induction pre with
  | nil => rfl
  | cons a pre ih => simp [ih]

theorem key_loop_step (code : Nat) (value : Int) (n : Nat) (pre : List Nat) (x : Nat)
    (rest : List Nat) (hi : 5 - n = pre.length) :
    key_loop code value (n + 1) (pre ++ x :: rest) =
      if value ≠ 0 ∧ (x = code ∨ x = 0) then pre ++ (code % 256) :: rest
      else if x = code ∨ x = 0 then
        key_loop code value n
          (if pre.length < 5 then
            ((pre ++ 0 :: rest).set pre.length ((pre ++ 0 :: rest).getD (pre.length + 1) 0)).set
              (pre.length + 1) 0
           else pre ++ 0 :: rest)
      else key_loop code value n (pre ++ x :: rest) := by
  rw [key_loop]
  simp only [hi, getD_append_here]
  by_cases hx : x = code
  · subst hx
    simp only [if_true, set_append_here, getD_append_here, true_or, and_true]
  · by_cases h0 : x = 0
    · subst h0
      simp only [if_neg hx, getD_append_here, set_append_here, or_true, and_true, if_true]
    · simp only [if_neg hx, getD_append_here, set_append_here, hx, h0, or_self, and_false,
        if_false]

theorem key_loop_eq_scan (code : Nat) (value : Int) :
    ∀ (n : Nat) (suf pre : List Nat), suf.length = n → pre.length + n = 6 →
      key_loop code value n (pre ++ suf) = pre ++ scan code value suf := by
  intro n
  induction n with
  | zero =>
    intro suf pre hs _
    have : suf = [] := List.length_eq_zero.mp hs
    subst this
    simp [key_loop, scan]
  | succ n ih =>
    intro suf pre hs hp
    have hi : 5 - n = pre.length := by omega
    match suf, hs with
    | [x], hs =>
      have hn : n = 0 := by simpa using hs
      subst hn
      have h5 : ¬ pre.length < 5 := by omega
      rw [key_loop_step code value 0 pre x [] hi, scan]
      simp only [key_loop, if_neg h5]
      split_ifs <;> simp_all
    | x :: y :: rest, hs =>
      have hlen : (y :: rest).length = n := by simpa using hs
      have hlt : pre.length < 5 := by
        have : 0 < n := by rw [← hlen]; simp
        omega
      rw [key_loop_step code value n pre x (y :: rest) hi, scan]
      simp only [if_pos hlt, getD_append_next, set_append_here, set_append_next]
      have e1 := ih (0 :: rest) (pre ++ [y]) (by simpa using hlen) (by simp; omega)
      have e2 := ih (y :: rest) (pre ++ [x]) hlen (by simp; omega)
      simp only [List.append_assoc, List.singleton_append] at e1 e2
      rw [e1, e2]
      split_ifs <;> simp

theorem scan_skip (code : Nat) (value : Int) (x : Nat) (rest : List Nat)
    (hx : x ≠ code) (h0 : x ≠ 0) :
    scan code value (x :: rest) = x :: scan code value rest := by
  cases rest with
  | nil => simp [scan, hx, h0]
  | cons y r => rw [scan]; simp [hx, h0]

theorem scan_press_hit (code : Nat) (value : Int) (x : Nat) (rest : List Nat)
    (hv : value ≠ 0) (hx : x = code ∨ x = 0) :
    scan code value (x :: rest) = (code % 256) :: rest := by
  cases rest with
  | nil => simp [scan, hx, hv]
  | cons y r => rw [scan]; simp [hx, hv]

theorem scan_release_hit (code : Nat) (x : Nat) :
    ∀ rest : List Nat, (x = code ∨ x = 0) → scan code 0 (x :: rest) = rest ++ [0] := by
  intro rest
  induction rest generalizing x with
  | nil =>
    intro hx
    rcases hx with hx | hx <;> simp [scan, hx]
  | cons y r ih =>
    intro hx
    rw [scan]
    simp [hx, ih 0 (Or.inr rfl)]

theorem scan_skip_all (code : Nat) (value : Int) (p l : List Nat)
    (hp : ∀ x ∈ p, x ≠ code ∧ x ≠ 0) :
    scan code value (p ++ l) = p ++ scan code value l := by
  induction p with
  | nil => rfl
  | cons a p ih =>
    have ha := hp a (List.mem_cons_self a p)
    rw [List.cons_append, scan_skip code value a (p ++ l) ha.1 ha.2,
      ih (fun x hx => hp x (List.mem_cons_of_mem a hx))]
    rfl

theorem scan_nohit (code : Nat) (value : Int) (p : List Nat)
    (hp : ∀ x ∈ p, x ≠ code ∧ x ≠ 0) : scan code value p = p := by
  have h := scan_skip_all code value p [] hp
  simpa [scan] using h

theorem slots_length (occ : List Nat) (h : occ.length ≤ 6) : (slots occ).length = 6 := by
  simp [slots]; omega

theorem key_loop_six (code : Nat) (value : Int) (key : List Nat) (h : key.length = 6) :
    key_loop code value 6 key = scan code value key := by
  have := key_loop_eq_scan code value 6 key [] h (by simp)
  simpa using this

theorem not_hit_of_not_mem (X : Nat) (occ : List Nat) (h0 : 0 ∉ occ) (hX : X ∉ occ) :
    ∀ x ∈ occ, x ≠ X ∧ x ≠ 0 := by
  intro x hx
  exact ⟨fun h => hX (h ▸ hx), fun h => h0 (h ▸ hx)⟩

/-- Press of a code that is already held: the slots do not change. -/
theorem scan_press_held (X : Nat) (value : Int) (occ : List Nat) (hv : value ≠ 0)
    (hb : X < 256) (h0 : 0 ∉ occ) (hX : X ∈ occ) :
    scan X value (slots occ) = slots occ := by
  obtain ⟨p, q, rfl, hp⟩ := List.eq_append_cons_of_mem hX
  have h0p : 0 ∉ p := fun h => h0 (by simp [h])
  unfold slots
  rw [List.append_assoc, scan_skip_all X value p _ (not_hit_of_not_mem X p h0p hp),
    List.cons_append, scan_press_hit X value X _ hv (Or.inl rfl), Nat.mod_eq_of_lt hb]

/-- Press of a code that is not held, with a free slot: it goes to the first
free slot. -/
theorem scan_press_free (X : Nat) (value : Int) (occ : List Nat) (hv : value ≠ 0)
    (hb : X < 256) (h0 : 0 ∉ occ) (hX : X ∉ occ) (hl : occ.length < 6) :
    scan X value (slots occ) = slots (occ ++ [X]) := by
  unfold slots
  have e : 6 - occ.length = (6 - (occ ++ [X]).length) + 1 := by simp; omega
  rw [scan_skip_all X value occ _ (not_hit_of_not_mem X occ h0 hX), e, List.replicate_succ,
    scan_press_hit X value 0 _ hv (Or.inr rfl), Nat.mod_eq_of_lt hb]
  simp

/-- Press of a code that is not held, with all six slots taken: dropped. -/
theorem scan_press_full (X : Nat) (value : Int) (occ : List Nat)
    (h0 : 0 ∉ occ) (hX : X ∉ occ) (hl : 6 ≤ occ.length) :
    scan X value (slots occ) = slots occ := by
  unfold slots
  have e : 6 - occ.length = 0 := by omega
  rw [e]
  simp only [List.replicate_zero, List.append_nil]
  exact scan_nohit X value occ (not_hit_of_not_mem X occ h0 hX)

/-- Release of a held code: it is erased and the later codes move left. -/
theorem scan_release_held (X : Nat) (occ : List Nat) (h0 : 0 ∉ occ) (hX : X ∈ occ)
    (hl : occ.length ≤ 6) :
    scan X 0 (slots occ) = slots (occ.erase X) := by
  obtain ⟨p, q, rfl, hp⟩ := List.eq_append_cons_of_mem hX
  have h0p : 0 ∉ p := fun h => h0 (by simp [h])
  have he : (p ++ X :: q).erase X = p ++ q := by
    rw [List.erase_append_right _ hp]; simp
  rw [he]
  unfold slots
  rw [List.append_assoc, scan_skip_all X 0 p _ (not_hit_of_not_mem X p h0p hp),
    List.cons_append, scan_release_hit X X _ (Or.inl rfl)]
  have e : 6 - (p ++ q).length = (6 - (p ++ X :: q).length) + 1 := by
    simp at hl ⊢; omega
  rw [e, List.replicate_succ']
  simp

/-- Release of a code that is not held: the slots do not change. -/
theorem scan_release_absent (X : Nat) (occ : List Nat) (h0 : 0 ∉ occ) (hX : X ∉ occ) :
    scan X 0 (slots occ) = slots occ := by
  unfold slots
  rw [scan_skip_all X 0 occ _ (not_hit_of_not_mem X occ h0 hX)]
  cases h : 6 - occ.length with
  | zero => simp [scan]
  | succ m =>
    rw [List.replicate_succ, scan_release_hit X 0 _ (Or.inr rfl), ← List.replicate_succ']
    rfl

/-- An event with usage code 0 (a key the table does not map) leaves the
slots as they are. -/
theorem scan_code_zero (value : Int) (occ : List Nat) (h0 : 0 ∉ occ) :
    scan 0 value (slots occ) = slots occ := by
  unfold slots
  rw [scan_skip_all 0 value occ _ (not_hit_of_not_mem 0 occ h0 h0)]
  cases h : 6 - occ.length with
  | zero => simp [scan]
  | succ m =>
    by_cases hv : value = 0
    · subst hv
      rw [List.replicate_succ, scan_release_hit 0 0 _ (Or.inr rfl), ← List.replicate_succ']
      rfl
    · rw [List.replicate_succ, scan_press_hit 0 value 0 _ hv (Or.inr rfl)]

theorem key_loop_press (X : Nat) (value : Int) (occ : List Nat) (hv : value ≠ 0)
    (hb : X < 256) (h : HeldOk occ) :
    key_loop X value 6 (slots occ) = slots (press_model occ X) := by
  rw [key_loop_six X value _ (slots_length occ h.1)]
  unfold press_model
  by_cases hX : X ∈ occ
  · rw [if_pos hX]; exact scan_press_held X value occ hv hb h.2.1 hX
  · rw [if_neg hX]
    by_cases hl : occ.length < 6
    · rw [if_pos hl]; exact scan_press_free X value occ hv hb h.2.1 hX hl
    · rw [if_neg hl]; exact scan_press_full X value occ h.2.1 hX (by omega)

theorem key_loop_release (X : Nat) (occ : List Nat) (h : HeldOk occ) :
    key_loop X 0 6 (slots occ) = slots (release_model occ X) := by
  rw [key_loop_six X 0 _ (slots_length occ h.1)]
  unfold release_model
  by_cases hX : X ∈ occ
  · exact scan_release_held X occ h.2.1 hX h.1
  · rw [List.erase_of_not_mem hX]; exact scan_release_absent X occ h.2.1 hX

theorem key_loop_code_zero (value : Int) (occ : List Nat) (h : HeldOk occ) :
    key_loop 0 value 6 (slots occ) = slots occ := by
  rw [key_loop_six 0 value _ (slots_length occ h.1)]
  exact scan_code_zero value occ h.2.1

theorem press_model_ok (X : Nat) (occ : List Nat) (hX0 : X ≠ 0) (h : HeldOk occ) :
    HeldOk (press_model occ X) := by
  unfold press_model
  by_cases hX : X ∈ occ
  · rw [if_pos hX]; exact h
  · rw [if_neg hX]
    by_cases hl : occ.length < 6
    · rw [if_pos hl]
      refine ⟨by simp; omega, ?_, ?_⟩
      · simp only [List.mem_append, List.mem_singleton, not_or]
        exact ⟨h.2.1, fun e => hX0 e.symm⟩
      · rw [List.nodup_append]
        refine ⟨h.2.2, List.nodup_singleton X, ?_⟩
        intro a ha hb
        rw [List.mem_singleton] at hb
        exact hX (hb ▸ ha)
    · rw [if_neg hl]; exact h

theorem release_model_ok (X : Nat) (occ : List Nat) (h : HeldOk occ) :
    HeldOk (release_model occ X) := by
  unfold release_model
  refine ⟨le_trans (List.length_erase_le X occ) h.1, ?_, h.2.2.erase X⟩
  exact fun hm => h.2.1 (List.mem_of_mem_erase hm)

/-- One event keeps the slots of the form `slots occ` with `occ` in order. -/
theorem input_event_held (linux2hid : Nat → Nat) (hb : ∀ c, linux2hid c < 256)
    (st : status) (ev : input_event_t) (ctrl intr : Int) (occ : List Nat)
    (hk : st.report.key = slots occ) (h : HeldOk occ) :
    ∃ occ2, (input_event linux2hid st ev ctrl intr).2.report.key = slots occ2 ∧
      HeldOk occ2 := by
  unfold input_event
  by_cases ht : ev.type ≠ EV_KEY
  · rw [if_pos ht]; exact ⟨occ, hk, h⟩
  · rw [if_neg ht]
    by_cases hc : ev.code ≥ 256
    · rw [if_pos hc]; exact ⟨occ, hk, h⟩
    · rw [if_neg hc]
      by_cases hm : modifier_switch ev.code ≠ 0
      · simp only [hm, ne_eq, not_false_eq_true, if_true]
        by_cases hv : ev.value = 0
        · simp only [hv, not_true_eq_false, if_false]; exact ⟨occ, hk, h⟩
        · simp only [hv, not_false_eq_true, if_true]; exact ⟨occ, hk, h⟩
      · simp only [hm, if_false, hk]
        by_cases hX0 : linux2hid ev.code = 0
        · rw [hX0, key_loop_code_zero _ occ h]; exact ⟨occ, rfl, h⟩
        · by_cases hv : ev.value = 0
          · rw [hv, key_loop_release _ occ h]
            exact ⟨_, rfl, release_model_ok _ occ h⟩
          · rw [key_loop_press _ _ occ hv (hb _) h]
            exact ⟨_, rfl, press_model_ok _ occ hX0 h⟩

theorem apply_events_held (linux2hid : Nat → Nat) (hb : ∀ c, linux2hid c < 256)
    (evs : List input_event_t) :
    ∀ (st : status) (occ : List Nat), st.report.key = slots occ → HeldOk occ →
      ∃ occ2, (apply_events linux2hid st evs).report.key = slots occ2 ∧ HeldOk occ2 := by
  induction evs with
  | nil => intro st occ hk h; exact ⟨occ, hk, h⟩
  | cons ev evs ih =>
    intro st occ hk h
    obtain ⟨occ1, hk1, h1⟩ := input_event_held linux2hid hb st ev (-1) (-1) occ hk h
    exact ih _ occ1 hk1 h1

theorem initial_held : initial_status.report.key = slots [] ∧ HeldOk [] := by
  refine ⟨rfl, ?_⟩
  simp [HeldOk]

theorem slots_getD_lt (occ : List Nat) (i : Nat) (h : i < occ.length) :
    (slots occ).getD i 0 = occ.get ⟨i, h⟩ := by
  unfold slots
  rw [List.getD_eq_getElem?_getD, List.getElem?_append_left h, List.getElem?_eq_getElem h]
  rfl

theorem slots_getD_ge (occ : List Nat) (i : Nat) (h : occ.length ≤ i) :
    (slots occ).getD i 0 = 0 := by
  unfold slots
  rw [List.getD_eq_getElem?_getD, List.getElem?_append_right h]
  by_cases hi : i - occ.length < 6 - occ.length
  · rw [List.getElem?_replicate_of_lt hi]; rfl
  · rw [List.getElem?_eq_none (by simpa using hi)]; rfl

theorem held_no_duplicate (occ : List Nat) (h : HeldOk occ) :
    no_duplicate_slots (slots occ) := by
  intro j _ i hij hne
  have hi : i < occ.length := by
    by_contra hc
    exact hne (slots_getD_ge occ i (by omega))
  rw [slots_getD_lt occ i hi]
  by_cases hjl : j < occ.length
  · rw [slots_getD_lt occ j hjl]
    intro e
    have := (List.Nodup.get_inj_iff h.2.2).mp e
    simp at this
    omega
  · rw [slots_getD_ge occ j (by omega)]
    intro e
    exact h.2.1 (e ▸ List.get_mem occ i hi)

theorem held_contiguous (occ : List Nat) (h : HeldOk occ) :
    contiguous_slots (slots occ) := by
  intro j _ i hij hz
  have hi : occ.length ≤ i := by
    by_contra hc
    have hi : i < occ.length := by omega
    rw [slots_getD_lt occ i hi] at hz
    exact h.2.1 (hz ▸ List.get_mem occ i hi)
  exact slots_getD_ge occ j (by omega)

/-! ## Claims on `ascii_char` -/

theorem ascii_char_untranslatable (n : Int) (c : Int) (h : translatable c = false) :
    ascii_char n c = (-1, []) := by
  unfold ascii_char
  simp [h]

/-- C1: for every character value `c` (so for every signed char, -128..127)
and a buffer of capacity 4, `ascii_char` returns a non-negative event count
exactly when `c` is 10, 27 or in 32..126, and returns -1 exactly when `c` is
negative, in 0..9, 11..26, 28..31, or at least 127. -/
theorem C1_ascii_char_success_iff (c : Int) :
    (0 ≤ (ascii_char 4 c).1 ↔ (c = 10 ∨ c = 27 ∨ (32 ≤ c ∧ c ≤ 126))) ∧
    ((ascii_char 4 c).1 = -1 ↔
      (c < 0 ∨ (0 ≤ c ∧ c ≤ 9) ∨ (11 ≤ c ∧ c ≤ 26) ∨ (28 ≤ c ∧ c ≤ 31) ∨ 127 ≤ c)) := by
  have key := translatable_iff c
  by_cases ht : translatable c = true
  · have hc := key.mp ht
    have h4 := fill_four c ht
    have hlen : (ascii_char 4 c).1 = 2 ∨ (ascii_char 4 c).1 = 4 := by
      rw [h4]
      cases hs : (linux_codes c.toNat).shift <;> simp [gen_keys, hs]
    constructor
    · constructor
      · intro _; exact hc
      · intro _; omega
    · constructor
      · intro h; omega
      · intro h; omega
  · have hf : translatable c = false := by simpa using ht
    have hn : ¬ (c = 10 ∨ c = 27 ∨ (32 ≤ c ∧ c ≤ 126)) := fun h => ht (key.mpr h)
    rw [ascii_char_untranslatable 4 c hf]
    constructor
    · constructor
      · intro h; simp at h
      · intro h; exact absurd h hn
    · constructor
      · intro _; omega
      · intro _; rfl

/-- C2: for every translatable character `c` and buffer capacity 4,
`ascii_char` returns 2 and writes [press base, release base] when the table
entry has no shift, and returns 4 and writes [press shift, press base,
release base, release shift] when it has one (KEY_LEFTSHIFT or
KEY_RIGHTSHIFT per the entry); in general the events are the presses of the
key list in order followed by the releases in reverse order. -/
theorem C2_ascii_char_events (c : Int) (h : translatable c = true) :
    ascii_char 4 c =
      (match (linux_codes c.toNat).shift with
       | no_shift =>
         (2, [fill_event (linux_codes c.toNat).key 1, fill_event (linux_codes c.toNat).key 0])
       | left_shift =>
         (4, [fill_event KEY_LEFTSHIFT 1, fill_event (linux_codes c.toNat).key 1,
              fill_event (linux_codes c.toNat).key 0, fill_event KEY_LEFTSHIFT 0])
       | right_shift =>
         (4, [fill_event KEY_RIGHTSHIFT 1, fill_event (linux_codes c.toNat).key 1,
              fill_event (linux_codes c.toNat).key 0, fill_event KEY_RIGHTSHIFT 0])) ∧
    (ascii_char 4 c).2 =
      (gen_keys (linux_codes c.toNat)).map (fun k => fill_event k 1) ++
      ((gen_keys (linux_codes c.toNat)).map (fun k => fill_event k 0)).reverse := by
  rw [fill_four c h]
  cases hs : (linux_codes c.toNat).shift <;> simp [gen_keys, hs]

theorem C2_ascii_char_events_witness :
    translatable 72 = true ∧
    ascii_char 4 72 =
      (4, [fill_event KEY_LEFTSHIFT 1, fill_event KEY_H 1,
           fill_event KEY_H 0, fill_event KEY_LEFTSHIFT 0]) :=
  ⟨by decide, (C2_ascii_char_events 72 (by decide)).1⟩

/-! ## Claims on the key slots -/

theorem sample_linux2hid_byte : ∀ c, sample_linux2hid c < 256 := by
  intro c
  unfold sample_linux2hid
  repeat' split
  all_goals exact (by decide)

/-- C3: for every sequence of events applied by `input_event` from the
all-empty report (with a table of byte-sized usage codes), the report keeps
6 slots, no non-zero usage code sits in two slots, and the occupied slots
are contiguous from index 0. -/
theorem C3_slots_invariant (linux2hid : Nat → Nat) (hb : ∀ c, linux2hid c < 256)
    (evs : List input_event_t) :
    ((apply_events linux2hid initial_status evs).report.key).length = 6 ∧
    no_duplicate_slots (apply_events linux2hid initial_status evs).report.key ∧
    contiguous_slots (apply_events linux2hid initial_status evs).report.key := by
  obtain ⟨occ, hk, h⟩ :=
    apply_events_held linux2hid hb evs initial_status [] initial_held.1 initial_held.2
  rw [hk]
  exact ⟨slots_length occ h.1, held_no_duplicate occ h, held_contiguous occ h⟩

theorem C3_slots_invariant_witness :
    (∀ c, sample_linux2hid c < 256) ∧
    no_duplicate_slots (apply_events sample_linux2hid initial_status
      [fill_event KEY_A 1, fill_event KEY_B 1, fill_event KEY_A 1, fill_event KEY_C 1,
       fill_event KEY_A 0]).report.key :=
  ⟨sample_linux2hid_byte,
   (C3_slots_invariant sample_linux2hid sample_linux2hid_byte
      [fill_event KEY_A 1, fill_event KEY_B 1, fill_event KEY_A 1, fill_event KEY_C 1,
       fill_event KEY_A 0]).2.1⟩

theorem input_event_press_key (linux2hid : Nat → Nat) (st : status) (c : Nat) (value : Int)
    (ctrl intr : Int) (hc : c < 256) (hm : modifier_switch c = 0) :
    (input_event linux2hid st ⟨EV_KEY, c, value⟩ ctrl intr) =
      (1, { report := { st.report with
              key := key_loop (linux2hid c) value 6 st.report.key } }) := by
  unfold input_event
  simp [hm, Nat.not_le.mpr hc]

theorem press_all (linux2hid : Nat → Nat) (cs : List Nat) :
    ∀ (st : status) (occ : List Nat), st.report.key = slots occ → HeldOk occ →
      (∀ c ∈ cs, c < 256 ∧ modifier_switch c = 0 ∧ linux2hid c ≠ 0 ∧ linux2hid c < 256) →
      (occ ++ cs.map linux2hid).Nodup →
      (apply_events linux2hid st (cs.map (fun c => fill_event c 1))).report.key =
        slots ((occ ++ cs.map linux2hid).take 6) := by
  induction cs with
  | nil =>
    intro st occ hk h _ _
    simp only [List.map_nil, apply_events, List.append_nil]
    rw [hk, List.take_of_length_le h.1]
  | cons c cs ih =>
    intro st occ hk h hcs hnd
    obtain ⟨hc, hm, hX0, hXb⟩ := hcs c (List.mem_cons_self c cs)
    have hXn : linux2hid c ∉ occ := by
      intro hmem
      rw [List.map_cons, List.nodup_append] at hnd
      exact hnd.2.2 hmem (List.mem_cons_self _ _)
    simp only [List.map_cons, apply_events]
    rw [show fill_event c 1 = ⟨EV_KEY, c, 1⟩ from rfl,
      input_event_press_key linux2hid st c 1 (-1) (-1) hc hm]
    simp only []
    have hstep : key_loop (linux2hid c) 1 6 st.report.key =
        slots (press_model occ (linux2hid c)) := by
      rw [hk]; exact key_loop_press _ 1 occ (by decide) hXb h
    have hok := press_model_ok (linux2hid c) occ hX0 h
    have := ih { report := { st.report with key := key_loop (linux2hid c) 1 6 st.report.key } }
      (press_model occ (linux2hid c)) hstep hok
      (fun d hd => hcs d (List.mem_cons_of_mem c hd))
    unfold press_model at this hok
    rw [if_neg hXn] at this hok
    by_cases hl : occ.length < 6
    · rw [if_pos hl] at this hok
      have e : occ ++ [linux2hid c] ++ cs.map linux2hid =
          occ ++ linux2hid c :: cs.map linux2hid := by simp
      rw [e] at this
      exact this (by simpa using hnd)
    · rw [if_neg hl] at this hok
      have hnd2 : (occ ++ cs.map linux2hid).Nodup := by
        rw [List.map_cons, List.nodup_append] at hnd
        rw [List.nodup_append]
        refine ⟨hnd.1, (List.nodup_cons.mp hnd.2.1).2, ?_⟩
        intro a ha hb2
        exact hnd.2.2 ha (List.mem_cons_of_mem _ hb2)
      rw [this hnd2]
      have h6 : occ.length = 6 := by have := h.1; omega
      rw [List.take_append_of_le_length (by omega), List.take_append_of_le_length (by omega)]

theorem slots_full (l : List Nat) (h : l.length = 6) : slots l = l := by
  simp [slots, h]

/-- C4: from the all-empty report, pressing 7 non-modifier keys whose usage
codes are non-zero and pairwise distinct, with no release, leaves the slots
equal to the first 6 usage codes in order; the slots after the 7th press are
those after the 6th, so the 7th press is dropped and overwrites nothing. -/
theorem C4_rollover_seventh_dropped (linux2hid : Nat → Nat) (cs : List Nat)
    (hlen : cs.length = 7)
    (hcs : ∀ c ∈ cs, c < 256 ∧ modifier_switch c = 0 ∧ linux2hid c ≠ 0 ∧ linux2hid c < 256)
    (hnd : (cs.map linux2hid).Nodup) :
    (apply_events linux2hid initial_status (cs.map (fun c => fill_event c 1))).report.key =
      (cs.map linux2hid).take 6 ∧
    (apply_events linux2hid initial_status (cs.map (fun c => fill_event c 1))).report.key =
      (apply_events linux2hid initial_status
        ((cs.take 6).map (fun c => fill_event c 1))).report.key := by
  have h7 := press_all linux2hid cs initial_status [] initial_held.1 initial_held.2 hcs
    (by simpa using hnd)
  have h6 := press_all linux2hid (cs.take 6) initial_status [] initial_held.1 initial_held.2
    (fun c hc => hcs c (List.mem_of_mem_take hc))
    (by
      simp only [List.nil_append, List.map_take]
      exact hnd.sublist (List.take_sublist 6 _))
  simp only [List.nil_append] at h7 h6
  rw [h7, h6, List.map_take, List.take_take, min_self]
  exact ⟨slots_full _ (by simp [hlen]), rfl⟩

theorem C4_rollover_seventh_dropped_witness :
    (apply_events sample_linux2hid initial_status
      ([KEY_A, KEY_B, KEY_C, KEY_D, KEY_E, KEY_F, KEY_G].map (fun c => fill_event c 1))).report.key
      = [4, 5, 6, 7, 8, 9] :=
  (C4_rollover_seventh_dropped sample_linux2hid [KEY_A, KEY_B, KEY_C, KEY_D, KEY_E, KEY_F, KEY_G]
    (by decide) (by decide) (by decide)).1

theorem mem_slots (occ : List Nat) (X : Nat) (hX : X ≠ 0) : X ∈ slots occ ↔ X ∈ occ := by
  unfold slots
  simp only [List.mem_append, List.mem_replicate]
  constructor
  · rintro (h | ⟨_, h⟩)
    · exact h
    · exact absurd h hX
  · intro h; exact Or.inl h

theorem zero_mem_slots (occ : List Nat) (h0 : 0 ∉ occ) : 0 ∈ slots occ ↔ occ.length < 6 := by
  unfold slots
  simp only [List.mem_append, List.mem_replicate]
  constructor
  · rintro (h | h)
    · exact absurd h h0
    · omega
  · intro h; right; simp; omega

theorem count_slots (occ : List Nat) (X : Nat) (hX : X ≠ 0) :
    (slots occ).count X = occ.count X := by
  unfold slots
  rw [List.count_append, List.count_replicate]
  simp [Ne.symm hX]

/-- C5: in every state reached from the all-empty report (with a table of
byte-sized usage codes) in which the non-zero usage code X of a non-modifier
key is already held or some slot is empty, pressing that key twice in a row
leaves exactly one occurrence of X in the slots, and the second press
leaves the slots as the first press left them. -/
theorem C5_press_twice (linux2hid : Nat → Nat) (hb : ∀ c, linux2hid c < 256)
    (evs : List input_event_t) (c : Nat) (value : Int) (ctrl intr : Int)
    (hc : c < 256) (hm : modifier_switch c = 0) (hX : linux2hid c ≠ 0) (hv : value ≠ 0)
    (hroom : linux2hid c ∈ (apply_events linux2hid initial_status evs).report.key ∨
      0 ∈ (apply_events linux2hid initial_status evs).report.key) :
    ((input_event linux2hid
        (input_event linux2hid (apply_events linux2hid initial_status evs)
          ⟨EV_KEY, c, value⟩ ctrl intr).2
        ⟨EV_KEY, c, value⟩ ctrl intr).2.report.key).count (linux2hid c) = 1 ∧
    (input_event linux2hid
        (input_event linux2hid (apply_events linux2hid initial_status evs)
          ⟨EV_KEY, c, value⟩ ctrl intr).2
        ⟨EV_KEY, c, value⟩ ctrl intr).2.report.key =
      (input_event linux2hid (apply_events linux2hid initial_status evs)
          ⟨EV_KEY, c, value⟩ ctrl intr).2.report.key := by
  obtain ⟨occ, hk, h⟩ :=
    apply_events_held linux2hid hb evs initial_status [] initial_held.1 initial_held.2
  rw [hk, mem_slots occ _ hX, zero_mem_slots occ h.2.1] at hroom
  rw [input_event_press_key linux2hid _ c value ctrl intr hc hm]
  rw [input_event_press_key linux2hid _ c value ctrl intr hc hm]
  simp only [hk]
  have hok := press_model_ok (linux2hid c) occ hX h
  rw [key_loop_press _ value occ hv (hb c) h, key_loop_press _ value _ hv (hb c) hok]
  have hmem : linux2hid c ∈ press_model occ (linux2hid c) := by
    unfold press_model
    by_cases hX' : linux2hid c ∈ occ
    · rw [if_pos hX']; exact hX'
    · rw [if_neg hX']
      have hl : occ.length < 6 := by
        rcases hroom with h1 | h1
        · exact absurd h1 hX'
        · exact h1
      rw [if_pos hl]; simp
  have hfix : press_model (press_model occ (linux2hid c)) (linux2hid c) =
      press_model occ (linux2hid c) := by
    generalize hg : press_model occ (linux2hid c) = g at hmem
    unfold press_model
    rw [if_pos hmem]
  rw [hfix, count_slots _ _ hX]
  exact ⟨List.count_eq_one_of_mem hok.2.2 hmem, rfl⟩

theorem C5_press_twice_witness :
    (0 ∈ (apply_events sample_linux2hid initial_status [fill_event KEY_B 1]).report.key) ∧
    ((input_event sample_linux2hid
        (input_event sample_linux2hid
          (apply_events sample_linux2hid initial_status [fill_event KEY_B 1])
          ⟨EV_KEY, KEY_A, 1⟩ 3 4).2
        ⟨EV_KEY, KEY_A, 1⟩ 3 4).2.report.key).count (sample_linux2hid KEY_A) = 1 :=
  ⟨by decide,
   (C5_press_twice sample_linux2hid sample_linux2hid_byte [fill_event KEY_B 1] KEY_A 1 3 4
      (by decide) (by decide) (by decide) (by decide) (Or.inr (by decide))).1⟩

/-! ## Claims on the return value and the modifiers -/

/-- C6 (as the code has it): `input_event` returns 0 only for the events it
ignores (type other than EV_KEY, or code of 256 and more), which leave the
report unchanged; for every key event with code below 256 it returns 1,
whether or not the report bytes changed. -/
theorem C6_return_value (linux2hid : Nat → Nat) (st : status) (ev : input_event_t)
    (ctrl intr : Int) :
    ((input_event linux2hid st ev ctrl intr).1 = 0 ∧
      (input_event linux2hid st ev ctrl intr).2 = st ∧
      ¬ (ev.type = EV_KEY ∧ ev.code < 256)) ∨
    ((input_event linux2hid st ev ctrl intr).1 = 1 ∧ ev.type = EV_KEY ∧ ev.code < 256) := by
  unfold input_event
  by_cases ht : ev.type = EV_KEY
  · by_cases hc : ev.code < 256
    · right
      refine ⟨?_, ht, hc⟩
      simp only [ht, ne_eq, not_true_eq_false, if_false, ge_iff_le, Nat.not_le.mpr hc]
      split_ifs <;> rfl
    · left
      simp [ht, Nat.not_lt.mp hc, hc]
  · left
    simp [ht]

/-- C6, the claim refuted: releasing a key that is not held (the A key, on
the all-empty report) returns 1 although the report is unchanged. -/
theorem C6_release_not_held_returns_true :
    input_event sample_linux2hid initial_status (fill_event KEY_A 0) (-1) (-1) =
      (1, initial_status) := by
  decide

theorem testBit_set (m b j : Nat) (hm : m < 256) :
    ((m ||| 2 ^ b) % 256).testBit j = (decide (b = j) || m.testBit j) ∨ 8 ≤ b := by
  by_cases hb : 8 ≤ b
  · exact Or.inr hb
  · left
    have h2 : 2 ^ b < 2 ^ 8 := Nat.pow_lt_pow_right (by decide) (by omega)
    have hlt : m ||| 2 ^ b < 2 ^ 8 := Nat.or_lt_two_pow (by simpa using hm) h2
    rw [Nat.mod_eq_of_lt (by simpa using hlt), Nat.testBit_or, Nat.testBit_two_pow, Bool.or_comm]

theorem testBit_clear (m b j : Nat) (hm : m < 256) :
    (m &&& (255 ^^^ 2 ^ b)).testBit j = (!decide (b = j) && m.testBit j) := by
  rw [Nat.testBit_and, Nat.testBit_xor, Nat.testBit_two_pow]
  by_cases hj : j < 8
  · have : Nat.testBit 255 j = true := by
      interval_cases j <;> decide
    rw [this]
    by_cases e : b = j <;> simp [e]
  · have : m.testBit j = false :=
      Nat.testBit_lt_two_pow (lt_of_lt_of_le (by simpa using hm)
        (Nat.pow_le_pow_right (by decide) (by omega : 8 ≤ j)))
    simp [this]

/-- C7: for each of the 8 modifier keys, `input_event` returns 1, sets
exactly that key's bit of the modifier byte on a press and clears exactly
that bit on a release, and leaves every other modifier bit, the 6 key slots
and the type, report-id and reserved bytes unchanged. -/
theorem C7_modifier_bit (linux2hid : Nat → Nat) (st : status) (ctrl intr : Int)
    (code bit : Nat) (value : Int) (hmods : st.report.mods < 256)
    (hkey : (code, bit) ∈ modifier_bits) :
    (input_event linux2hid st ⟨EV_KEY, code, value⟩ ctrl intr).1 = 1 ∧
    (∀ j, (input_event linux2hid st ⟨EV_KEY, code, value⟩ ctrl intr).2.report.mods.testBit j =
      if j = bit then decide (value ≠ 0) else st.report.mods.testBit j) ∧
    (input_event linux2hid st ⟨EV_KEY, code, value⟩ ctrl intr).2.report.key = st.report.key ∧
    (input_event linux2hid st ⟨EV_KEY, code, value⟩ ctrl intr).2.report.type = st.report.type ∧
    (input_event linux2hid st ⟨EV_KEY, code, value⟩ ctrl intr).2.report.report =
      st.report.report ∧
    (input_event linux2hid st ⟨EV_KEY, code, value⟩ ctrl intr).2.report.reserved =
      st.report.reserved := by
  have hall : ∀ p ∈ modifier_bits, modifier_switch p.1 = 2 ^ p.2 ∧ p.1 < 256 ∧ p.2 < 8 := by
    decide
  have hsw := hall (code, bit) hkey
  simp only at hsw
  obtain ⟨hsw, hc, hbit⟩ := hsw
  have hne : (2 : Nat) ^ bit ≠ 0 := by positivity
  unfold input_event
  simp only [ne_eq, not_true_eq_false, if_false, ge_iff_le, Nat.not_le.mpr hc, hsw, hne,
    not_false_eq_true, if_true]
  by_cases hv : value = 0
  · simp only [hv, not_true_eq_false, if_false, and_true, true_and, decide_False]
    intro j
    rw [testBit_clear _ bit j hmods]
    by_cases e : j = bit
    · simp [e]
    · simp [e, Ne.symm e]
  · simp only [hv, not_false_eq_true, if_true, and_true, true_and, decide_True]
    intro j
    rcases testBit_set st.report.mods bit j hmods with h | h
    · rw [h]
      by_cases e : j = bit
      · simp [e]
      · simp [e, Ne.symm e]
    · omega

theorem C7_modifier_bit_witness :
    (input_event sample_linux2hid ⟨⟨0xa1, 1, 0x21, 0, [4, 0, 0, 0, 0, 0]⟩⟩
      ⟨EV_KEY, KEY_LEFTSHIFT, 1⟩ 3 4).1 = 1 :=
  (C7_modifier_bit sample_linux2hid ⟨⟨0xa1, 1, 0x21, 0, [4, 0, 0, 0, 0, 0]⟩⟩ 3 4
    KEY_LEFTSHIFT 1 1 (by decide) (by decide)).1

/-! ## The session on a host where everything succeeds -/

theorem input_event_key_ret (linux2hid : Nat → Nat) (st : status) (ev : input_event_t)
    (ctrl intr : Int) (ht : ev.type = EV_KEY) (hc : ev.code < 256) :
    (input_event linux2hid st ev ctrl intr).1 = 1 := by
  unfold input_event
  simp only [ht, ne_eq, not_true_eq_false, if_false, ge_iff_le, Nat.not_le.mpr hc]
  split_ifs <;> rfl

theorem input_event_fds (linux2hid : Nat → Nat) (st : status) (ev : input_event_t)
    (ctrl intr : Int) :
    input_event linux2hid st ev ctrl intr = input_event linux2hid st ev (-1) (-1) := rfl

theorem report_bytes_pos (r : key_report) : 0 < (report_bytes r).length := by
  simp [report_bytes]

theorem snapshots_append (linux2hid : Nat → Nat) (e1 e2 : List input_event_t) :
    ∀ st : status, snapshots linux2hid st (e1 ++ e2) =
      snapshots linux2hid st e1 ++ snapshots linux2hid (apply_events linux2hid st e1) e2 := by
  induction e1 with
  | nil => intro st; rfl
  | cons ev e1 ih => intro st; simp [snapshots, apply_events, ih]

theorem apply_events_append (linux2hid : Nat → Nat) (e1 e2 : List input_event_t) :
    ∀ st : status, apply_events linux2hid st (e1 ++ e2) =
      apply_events linux2hid (apply_events linux2hid st e1) e2 := by
  induction e1 with
  | nil => intro st; rfl
  | cons ev e1 ih => intro st; simp [apply_events, ih]

theorem paced_writes_append (intr : Int) (r1 r2 : List (List Nat)) :
    paced_writes intr (r1 ++ r2) = paced_writes intr r1 ++ paced_writes intr r2 := by
  simp [paced_writes]

/-- While connected, with complete writes, the event loop sends one paced
report per key event. -/
theorem event_loop_streaming (h : host) (linux2hid : Nat → Nat) (src tgt : Nat)
    (token_idx char_idx : Nat)
    (hwrite : ∀ t fd buf, h.write t fd buf = (buf.length : Int))
    (evs : List input_event_t) :
    ∀ (i : Nat) (s : session_state), s.control ≠ -1 →
      (token_idx > 0 ∨ char_idx > 0 ∨ i > 0) →
      (∀ ev ∈ evs, ev.type = EV_KEY ∧ ev.code < 256) →
      event_loop h linux2hid src tgt token_idx char_idx i evs s =
        { control := s.control, intr := s.intr,
          st := apply_events linux2hid s.st evs,
          trace := s.trace ++ paced_writes s.intr (snapshots linux2hid s.st evs) } := by
  induction evs with
  | nil =>
    intro i s _ _ _
    simp [event_loop, apply_events, snapshots, paced_writes]
  | cons ev evs ih =>
    intro i s hc hp hev
    obtain ⟨ht, hcode⟩ := hev ev (List.mem_cons_self ev evs)
    have hret := input_event_key_ret linux2hid s.st ev (-1) (-1) ht hcode
    have hlen : ¬ ((report_bytes (input_event linux2hid s.st ev (-1) (-1)).2.report).length : Int)
        ≤ 0 := by
      have := report_bytes_pos (input_event linux2hid s.st ev (-1) (-1)).2.report
      omega
    rw [event_loop]
    simp only [input_event_fds linux2hid s.st ev s.control s.intr, hret, one_ne_zero,
      if_false, hc, hp, if_true, hwrite, Bool.false_eq_true, hlen]
    rw [ih (i + 1)]
    · simp [apply_events, snapshots, paced_writes]
    · exact hc
    · exact Or.inr (Or.inr (Nat.succ_pos i))
    · exact fun e he => hev e (List.mem_cons_of_mem ev he)

set_option maxRecDepth 100000 in
theorem linux_codes_key_byte : ∀ n : Fin 128, (linux_codes n.val).key < 256 := by
  decide

theorem char_events_untranslatable (c : Int) (h : translatable c = false) :
    char_events c = [] := by
  unfold char_events
  rw [ascii_char_untranslatable _ c h]
  rfl

theorem char_events_translatable (c : Int) (h : translatable c = true) :
    char_events c =
      (gen_keys (linux_codes c.toNat)).map (fun k => fill_event k 1) ++
      (gen_keys (linux_codes c.toNat)).reverse.map (fun k => fill_event k 0) := by
  unfold char_events
  have e : MAX_EVENTS_PER_ASCII_CHAR = 4 := rfl
  rw [e, fill_four c h]
  apply List.take_of_length_le
  simp
  omega

theorem char_events_key (c : Int) :
    ∀ ev ∈ char_events c, ev.type = EV_KEY ∧ ev.code < 256 := by
  by_cases ht : translatable c = true
  · have hc := (translatable_iff c).mp ht
    have hn : c.toNat < 128 := by omega
    have hk := linux_codes_key_byte ⟨c.toNat, hn⟩
    simp only at hk
    rw [char_events_translatable c ht]
    intro ev hev
    simp only [List.mem_append, List.mem_map, List.mem_reverse] at hev
    have hkeys : ∀ k ∈ gen_keys (linux_codes c.toNat), k < 256 := by
      intro k hkm
      unfold gen_keys at hkm
      cases hs : (linux_codes c.toNat).shift <;> rw [hs] at hkm <;>
        simp only [List.mem_cons, List.mem_singleton, List.not_mem_nil, or_false] at hkm
      · rw [hkm]; exact hk
      · rcases hkm with rfl | rfl
        · decide
        · exact hk
      · rcases hkm with rfl | rfl
        · decide
        · exact hk
    rcases hev with ⟨k, hkm, rfl⟩ | ⟨k, hkm, rfl⟩ <;> exact ⟨rfl, hkeys k hkm⟩
  · have hf : translatable c = false := by simpa using ht
    rw [char_events_untranslatable c hf]
    intro ev hev
    cases hev

/-- While connected, with complete writes, the character loop sends one
paced report per event of each character. -/
theorem char_loop_streaming (h : host) (linux2hid : Nat → Nat) (src tgt : Nat)
    (token_idx : Nat)
    (hwrite : ∀ t fd buf, h.write t fd buf = (buf.length : Int))
    (cs : List Int) :
    ∀ (char_idx : Nat) (s : session_state), s.control ≠ -1 →
      (token_idx > 0 ∨ char_idx > 0) →
      char_loop h linux2hid src tgt token_idx char_idx cs s =
        { control := s.control, intr := s.intr,
          st := apply_events linux2hid s.st ((c_string cs).flatMap char_events),
          trace := s.trace ++
            paced_writes s.intr (snapshots linux2hid s.st ((c_string cs).flatMap char_events)) } := by
  induction cs with
  | nil =>
    intro ci s _ _
    simp [char_loop, c_string, apply_events, snapshots, paced_writes]
  | cons c cs ih =>
    intro ci s hc hp
    rw [char_loop]
    by_cases h0 : c = 0
    · simp [h0, c_string, apply_events, snapshots, paced_writes]
    · rw [if_neg h0]
      have hp2 : token_idx > 0 ∨ ci > 0 ∨ 0 > 0 := by
        rcases hp with hp | hp
        · exact Or.inl hp
        · exact Or.inr (Or.inl hp)
      rw [event_loop_streaming h linux2hid src tgt token_idx ci hwrite (char_events c) 0 s hc
        hp2 (char_events_key c)]
      rw [ih (ci + 1)]
      · have hcs : c_string (c :: cs) = c :: c_string cs := by
          simp [c_string, List.takeWhile, h0]
        rw [hcs]
        simp [apply_events_append, snapshots_append, paced_writes_append]
      · exact hc
      · exact Or.inr (Nat.succ_pos ci)

/-- The first event that needs a report, on a host where everything
succeeds: connect, handshake, then the report without a sleep; the later
events of the character are paced. -/
theorem event_loop_first (h : host) (linux2hid : Nat → Nat) (src tgt : Nat)
    (htgt : tgt ≠ BDADDR_ANY)
    (hopen : ∀ t s d p, h.l2cap_connect t s d p ≠ -1)
    (hwrite : ∀ t fd buf, h.write t fd buf = (buf.length : Int))
    (ev : input_event_t) (evs : List input_event_t) (s : session_state)
    (hc : s.control = -1)
    (hev : ∀ e ∈ ev :: evs, e.type = EV_KEY ∧ e.code < 256) :
    event_loop h linux2hid src tgt 0 0 0 (ev :: evs) s =
      { control := h.l2cap_connect s.trace src tgt L2CAP_PSM_HIDP_CTRL,
        intr := h.l2cap_connect
          (s.trace ++ [io_call.l2cap_connect L2CAP_PSM_HIDP_CTRL
            (h.l2cap_connect s.trace src tgt L2CAP_PSM_HIDP_CTRL)])
          src tgt L2CAP_PSM_HIDP_INTR,
        st := apply_events linux2hid s.st (ev :: evs),
        trace := s.trace ++
          opening_calls (h.l2cap_connect s.trace src tgt L2CAP_PSM_HIDP_CTRL)
            (h.l2cap_connect
              (s.trace ++ [io_call.l2cap_connect L2CAP_PSM_HIDP_CTRL
                (h.l2cap_connect s.trace src tgt L2CAP_PSM_HIDP_CTRL)])
              src tgt L2CAP_PSM_HIDP_INTR) ++
          report_calls
            (h.l2cap_connect
              (s.trace ++ [io_call.l2cap_connect L2CAP_PSM_HIDP_CTRL
                (h.l2cap_connect s.trace src tgt L2CAP_PSM_HIDP_CTRL)])
              src tgt L2CAP_PSM_HIDP_INTR)
            (snapshots linux2hid s.st (ev :: evs)) } := by
  obtain ⟨ht, hcode⟩ := hev ev (List.mem_cons_self ev evs)
  obtain ⟨sc, si, sst, str⟩ := s
  simp only at hc
  subst hc
  have hfd : input_event linux2hid sst ev (-1) si = input_event linux2hid sst ev (-1) (-1) := rfl
  have hret := input_event_key_ret linux2hid sst ev (-1) (-1) ht hcode
  have hlen : ¬ ((report_bytes (input_event linux2hid sst ev (-1) (-1)).2.report).length : Int)
      ≤ 0 := by
    have := report_bytes_pos (input_event linux2hid sst ev (-1) (-1)).2.report
    omega
  have hb : ¬ bacmp tgt BDADDR_ANY = 0 := by
    unfold bacmp
    simp [htgt]
  rw [event_loop]
  simp only [hfd, hret, one_ne_zero, if_false, if_true, connect_host, hb, hopen, hello,
    hwrite, List.length_cons, List.length_nil, Bool.false_eq_true, hlen, gt_iff_lt,
    lt_self_iff_false, or_self]
  norm_num
  rw [event_loop_streaming h linux2hid src tgt 0 0 hwrite evs 1]
  · simp [apply_events, snapshots, opening_calls, report_calls]
  · exact hopen _ _ _ _
  · exact Or.inr (Or.inr Nat.one_pos)
  · exact fun e he => hev e (List.mem_cons_of_mem ev he)

theorem c_string_no_nul (cs : List Int) (h : ∀ c ∈ cs, c ≠ 0) : c_string cs = cs := by
  unfold c_string
  rw [List.takeWhile_eq_self_iff]
  intro c hc
  simpa using h c hc

theorem stream_events_eq (input : List Int) :
    stream_events input =
      fill_event KEY_BACKSPACE 1 :: fill_event KEY_BACKSPACE 0 ::
        ((List.replicate 9 (27 : Int)).flatMap char_events ++
          ((c_string input).flatMap char_events ++ ([10] : List Int).flatMap char_events)) := by
  unfold stream_events stream
  have ha : activation = 27 :: List.replicate 9 27 := rfl
  have h27 : char_events 27 = [fill_event KEY_BACKSPACE 1, fill_event KEY_BACKSPACE 0] := by
    decide
  rw [ha]
  simp [h27]

/-- The activation token on a host where every open and every write
succeeds: the first character connects, the others stream. -/
theorem activation_loop_success (h : host) (linux2hid : Nat → Nat) (src tgt : Nat)
    (htgt : tgt ≠ BDADDR_ANY)
    (hopen : ∀ t s d p, h.l2cap_connect t s d p ≠ -1)
    (hwrite : ∀ t fd buf, h.write t fd buf = (buf.length : Int)) :
    char_loop h linux2hid src tgt 0 0 activation
        { control := -1, intr := -1, st := initial_status, trace := [] } =
      { control := first_control h src tgt, intr := first_intr h src tgt,
        st := apply_events linux2hid initial_status (activation.flatMap char_events),
        trace := opening_calls (first_control h src tgt) (first_intr h src tgt) ++
          report_calls (first_intr h src tgt)
            (snapshots linux2hid initial_status (activation.flatMap char_events)) } := by
  have ha : activation = 27 :: List.replicate 9 27 := rfl
  have h27 : char_events 27 = [fill_event KEY_BACKSPACE 1, fill_event KEY_BACKSPACE 0] := by
    decide
  have hc9 : c_string (List.replicate 9 (27 : Int)) = List.replicate 9 27 := by decide
  have hctl : first_control h src tgt ≠ -1 := hopen _ _ _ _
  rw [ha, char_loop, if_neg (by decide), h27,
    event_loop_first h linux2hid src tgt htgt hopen hwrite _ _ _ rfl
      (by intro e he; simp only [List.mem_cons, List.mem_singleton, List.not_mem_nil,
            or_false] at he; rcases he with rfl | rfl <;> exact ⟨rfl, by decide⟩)]
  rw [char_loop_streaming h linux2hid src tgt 0 hwrite _ 1 _ hctl (Or.inr Nat.one_pos)]
  simp only [hc9, List.nil_append, first_control, first_intr, List.flatMap_cons, h27,
    apply_events_append, snapshots_append, List.append_assoc]
  generalize (List.replicate 9 (27 : Int)).flatMap char_events = X
  simp only [snapshots, List.cons_append, List.nil_append, report_calls, paced_writes_append,
    List.append_assoc]
  simp [paced_writes, apply_events]

theorem report_calls_append (intr : Int) (r : List Nat) (r1 r2 : List (List Nat)) :
    report_calls intr (r :: r1 ++ r2) =
      report_calls intr (r :: r1) ++ paced_writes intr r2 := by
  simp [report_calls, paced_writes_append]

/-- The state in which the three token loops leave a session on a host
where every open and every write succeeds. -/
theorem token_loop_success (h : host) (linux2hid : Nat → Nat) (src tgt : Nat)
    (input : List Int) (htgt : tgt ≠ BDADDR_ANY)
    (hopen : ∀ t s d p, h.l2cap_connect t s d p ≠ -1)
    (hwrite : ∀ t fd buf, h.write t fd buf = (buf.length : Int)) :
    token_loop h linux2hid src tgt 0 [activation, input, [10]]
        { control := -1, intr := -1, st := initial_status, trace := [] } =
      { control := first_control h src tgt, intr := first_intr h src tgt,
        st := apply_events linux2hid initial_status (stream_events input),
        trace := opening_calls (first_control h src tgt) (first_intr h src tgt) ++
          report_calls (first_intr h src tgt)
            (snapshots linux2hid initial_status (stream_events input)) } := by
  have hc10 : c_string ([10] : List Int) = [10] := by decide
  have hctl : first_control h src tgt ≠ -1 := hopen _ _ _ _
  have hact : activation.flatMap char_events =
      fill_event KEY_BACKSPACE 1 :: (fill_event KEY_BACKSPACE 0 ::
        (List.replicate 9 (27 : Int)).flatMap char_events) := by decide
  rw [token_loop, token_loop, token_loop, token_loop,
    activation_loop_success h linux2hid src tgt htgt hopen hwrite]
  rw [char_loop_streaming h linux2hid src tgt 1 hwrite _ 0 _ hctl (Or.inl Nat.one_pos)]
  rw [char_loop_streaming h linux2hid src tgt 2 hwrite _ 0 _ hctl (Or.inl (by decide))]
  unfold stream_events stream
  simp only [hc10, List.flatMap_append, apply_events_append, snapshots_append,
    List.append_assoc]
  rw [hact]
  generalize (List.replicate 9 (27 : Int)).flatMap char_events = X
  generalize (c_string input).flatMap char_events = Y
  generalize ([10] : List Int).flatMap char_events = Z
  simp only [snapshots, List.cons_append, report_calls, paced_writes_append,
    List.append_assoc]
  simp [paced_writes, apply_events]

/-! ## One key at a time: the reports of "Hi" -/

theorem initial_status_kb : initial_status = kb 0 0 := rfl

theorem key_loop_press_empty (X : Nat) (hX : X < 256) :
    key_loop X 1 6 [0, 0, 0, 0, 0, 0] = [X, 0, 0, 0, 0, 0] := by
  simp [key_loop, Nat.mod_eq_of_lt hX]

theorem key_loop_release_single (X : Nat) :
    key_loop X 0 6 [X, 0, 0, 0, 0, 0] = [0, 0, 0, 0, 0, 0] := by
  by_cases h : X = 0
  · subst h; simp [key_loop]
  · have h' : ¬ 0 = X := fun e => h e.symm
    simp [key_loop, h, h']

theorem kb_press (linux2hid : Nat → Nat) (hb : ∀ c, linux2hid c < 256) (m c : Nat)
    (hc : c < 256) (hm : modifier_switch c = 0) :
    (input_event linux2hid (kb m 0) (fill_event c 1) (-1) (-1)).2 = kb m (linux2hid c) := by
  rw [show fill_event c 1 = ⟨EV_KEY, c, 1⟩ from rfl,
    input_event_press_key linux2hid _ c 1 (-1) (-1) hc hm]
  simp [kb, key_loop_press_empty _ (hb c)]

theorem kb_release (linux2hid : Nat → Nat) (m c : Nat)
    (hc : c < 256) (hm : modifier_switch c = 0) :
    (input_event linux2hid (kb m (linux2hid c)) (fill_event c 0) (-1) (-1)).2 = kb m 0 := by
  rw [show fill_event c 0 = ⟨EV_KEY, c, 0⟩ from rfl,
    input_event_press_key linux2hid _ c 0 (-1) (-1) hc hm]
  simp [kb, key_loop_release_single]

theorem kb_left_shift_press (linux2hid : Nat → Nat) (k : Nat) :
    (input_event linux2hid (kb 0 k) (fill_event KEY_LEFTSHIFT 1) (-1) (-1)).2 = kb 2 k := by
  simp [input_event, kb, fill_event, modifier_switch, EV_KEY, KEY_LEFTSHIFT, KEY_LEFTCTRL,
    HIDP_LEFTSHIFT, HIDP_LEFTCTRL]

theorem kb_left_shift_release (linux2hid : Nat → Nat) (k : Nat) :
    (input_event linux2hid (kb 2 k) (fill_event KEY_LEFTSHIFT 0) (-1) (-1)).2 = kb 0 k := by
  have e : (2 : Nat) &&& 253 = 0 := by decide
  simp [input_event, kb, fill_event, modifier_switch, EV_KEY, KEY_LEFTSHIFT, KEY_LEFTCTRL,
    HIDP_LEFTSHIFT, HIDP_LEFTCTRL, e]

theorem snapshots_length (linux2hid : Nat → Nat) (evs : List input_event_t) :
    ∀ st, (snapshots linux2hid st evs).length = evs.length := by
  induction evs with
  | nil => intro st; rfl
  | cons ev evs ih => intro st; simp [snapshots, ih]

theorem snapshots_ten_bytes (linux2hid : Nat → Nat) (hb : ∀ c, linux2hid c < 256)
    (evs : List input_event_t) :
    ∀ (st : status) (occ : List Nat), st.report.key = slots occ → HeldOk occ →
      ∀ r ∈ snapshots linux2hid st evs, r.length = 10 := by
  induction evs with
  | nil => intro st occ _ _ r hr; cases hr
  | cons ev evs ih =>
    intro st occ hk h r hr
    obtain ⟨occ1, hk1, h1⟩ := input_event_held linux2hid hb st ev (-1) (-1) occ hk h
    simp only [snapshots, List.mem_cons] at hr
    rcases hr with rfl | hr
    · simp [report_bytes, hk1, slots_length occ1 h1.1]
    · exact ih _ occ1 hk1 h1 r hr

theorem hi_events :
    stream_events [72, 105] =
      (List.replicate 10 [fill_event KEY_BACKSPACE 1, fill_event KEY_BACKSPACE 0]).flatten ++
      [fill_event KEY_LEFTSHIFT 1, fill_event KEY_H 1, fill_event KEY_H 0,
       fill_event KEY_LEFTSHIFT 0, fill_event KEY_I 1, fill_event KEY_I 0,
       fill_event KEY_ENTER 1, fill_event KEY_ENTER 0] := by
  decide

theorem press_release_pairs (linux2hid : Nat → Nat) (hb : ∀ c, linux2hid c < 256)
    (c : Nat) (hc : c < 256) (hm : modifier_switch c = 0) (n : Nat) :
    apply_events linux2hid (kb 0 0)
      (List.replicate n [fill_event c 1, fill_event c 0]).flatten = kb 0 0 := by
  induction n with
  | zero => rfl
  | succ n ih =>
    rw [List.replicate_succ, List.flatten_cons, apply_events_append]
    simp only [apply_events, kb_press linux2hid hb 0 c hc hm, kb_release linux2hid 0 c hc hm]
    exact ih

/-- The last 8 reports of the payload "Hi" on a table of byte-sized codes. -/
theorem hi_reports (linux2hid : Nat → Nat) (hb : ∀ c, linux2hid c < 256) :
    (snapshots linux2hid initial_status (stream_events [72, 105])).length = 28 ∧
    (snapshots linux2hid initial_status (stream_events [72, 105])).drop 20 =
      [[0xa1, 0x01, 0x02, 0, 0, 0, 0, 0, 0, 0],
       [0xa1, 0x01, 0x02, 0, linux2hid KEY_H, 0, 0, 0, 0, 0],
       [0xa1, 0x01, 0x02, 0, 0, 0, 0, 0, 0, 0],
       [0xa1, 0x01, 0x00, 0, 0, 0, 0, 0, 0, 0],
       [0xa1, 0x01, 0x00, 0, linux2hid KEY_I, 0, 0, 0, 0, 0],
       [0xa1, 0x01, 0x00, 0, 0, 0, 0, 0, 0, 0],
       [0xa1, 0x01, 0x00, 0, linux2hid KEY_ENTER, 0, 0, 0, 0, 0],
       [0xa1, 0x01, 0x00, 0, 0, 0, 0, 0, 0, 0]] := by
  constructor
  · rw [snapshots_length, hi_events]; rfl
  · rw [hi_events, snapshots_append, initial_status_kb,
      press_release_pairs linux2hid hb KEY_BACKSPACE (by decide) (by decide) 10]
    have hl : (snapshots linux2hid (kb 0 0)
        (List.replicate 10 [fill_event KEY_BACKSPACE 1, fill_event KEY_BACKSPACE 0]).flatten).length
        = 20 := by
      rw [snapshots_length]; rfl
    rw [List.drop_append_eq_append_drop, hl, List.drop_of_length_le (by rw [hl])]
    simp only [snapshots, kb_left_shift_press, kb_left_shift_release,
      kb_press linux2hid hb 2 KEY_H (by decide) (by decide),
      kb_release linux2hid 2 KEY_H (by decide) (by decide),
      kb_press linux2hid hb 0 KEY_I (by decide) (by decide),
      kb_release linux2hid 0 KEY_I (by decide) (by decide),
      kb_press linux2hid hb 0 KEY_ENTER (by decide) (by decide),
      kb_release linux2hid 0 KEY_ENTER (by decide) (by decide)]
    simp [report_bytes, kb]

/-! ## Claims on the session -/

theorem session_success_trace (h : host) (linux2hid : Nat → Nat) (src tgt : Nat)
    (input : List Int) (htgt : tgt ≠ BDADDR_ANY)
    (hopen : ∀ t s d p, h.l2cap_connect t s d p ≠ -1)
    (hwrite : ∀ t fd buf, h.write t fd buf = (buf.length : Int)) :
    (session h linux2hid src tgt input).trace =
      opening_calls (first_control h src tgt) (first_intr h src tgt) ++
      report_calls (first_intr h src tgt)
        (snapshots linux2hid initial_status (stream_events input)) ++
      [io_call.close (first_control h src tgt), io_call.close (first_intr h src tgt)] := by
  have hctl : first_control h src tgt ≠ -1 := hopen _ _ _ _
  have hintr : first_intr h src tgt ≠ -1 := hopen _ _ _ _
  unfold session
  simp only [token_loop_success h linux2hid src tgt input htgt hopen hwrite, ne_eq, hctl,
    hintr, not_false_eq_true, if_true, List.append_assoc, List.singleton_append]

theorem good_host_opens : ∀ t s d p, good_host.l2cap_connect t s d p ≠ -1 := by
  intro t s d p
  simp only [good_host]
  omega

theorem good_host_writes : ∀ t fd buf, good_host.write t fd buf = (buf.length : Int) :=
  fun _ _ _ => rfl

/-- C8, the claim refuted: on a host where everything succeeds, the first
report written for the payload "Hi" has 10 bytes (type, report id,
modifiers, reserved, 6 key slots), not 9. -/
theorem C8_report_has_ten_bytes :
    (session good_host sample_linux2hid 0 1 [72, 105]).trace.take 6 =
      [io_call.l2cap_connect L2CAP_PSM_HIDP_CTRL 3,
       io_call.l2cap_connect L2CAP_PSM_HIDP_INTR 4,
       io_call.write 3 [0xa1, 0x13, 0x03] 3,
       io_call.write 3 [0xa1, 0x13, 0x02] 3,
       io_call.sleep 1,
       io_call.write 4 [0xa1, 0x01, 0, 0, 42, 0, 0, 0, 0, 0] 10] ∧
    ([0xa1, 0x01, 0, 0, 42, 0, 0, 0, 0, 0] : List Nat).length ≠ 9 := by
  rw [session_success_trace good_host sample_linux2hid 0 1 [72, 105] (by decide)
    good_host_opens good_host_writes]
  decide

/-- C8 (as the code has it): in a session whose target is set and in which
every channel open and every write succeeds, the calls made are the two
opens, the two handshake writes, the 1 s sleep, then one report write on
the interrupt channel per event of each translatable character of
(10 x character 27) ++ payload ++ newline, in order, each report being the
10-byte snapshot of the keyboard state after that event, starting from the
all-zero state, and finally the two closes; untranslatable characters have
no events. For payload "Hi" there are 28 reports, the last 8 being: shift
pressed, shift+h pressed, shift only, all released, i pressed, all released,
enter pressed, all released. -/
theorem C8_session_reports (h : host) (linux2hid : Nat → Nat) (src tgt : Nat)
    (input : List Int) (htgt : tgt ≠ BDADDR_ANY)
    (hopen : ∀ t s d p, h.l2cap_connect t s d p ≠ -1)
    (hwrite : ∀ t fd buf, h.write t fd buf = (buf.length : Int))
    (hb : ∀ c, linux2hid c < 256) :
    (session h linux2hid src tgt input).trace =
      opening_calls (first_control h src tgt) (first_intr h src tgt) ++
      report_calls (first_intr h src tgt)
        (snapshots linux2hid initial_status (stream_events input)) ++
      [io_call.close (first_control h src tgt), io_call.close (first_intr h src tgt)] ∧
    (∀ r ∈ snapshots linux2hid initial_status (stream_events input), r.length = 10) ∧
    (∀ c, translatable c = false → char_events c = []) ∧
    (snapshots linux2hid initial_status (stream_events [72, 105])).length = 28 ∧
    (snapshots linux2hid initial_status (stream_events [72, 105])).drop 20 =
      [[0xa1, 0x01, 0x02, 0, 0, 0, 0, 0, 0, 0],
       [0xa1, 0x01, 0x02, 0, linux2hid KEY_H, 0, 0, 0, 0, 0],
       [0xa1, 0x01, 0x02, 0, 0, 0, 0, 0, 0, 0],
       [0xa1, 0x01, 0x00, 0, 0, 0, 0, 0, 0, 0],
       [0xa1, 0x01, 0x00, 0, linux2hid KEY_I, 0, 0, 0, 0, 0],
       [0xa1, 0x01, 0x00, 0, 0, 0, 0, 0, 0, 0],
       [0xa1, 0x01, 0x00, 0, linux2hid KEY_ENTER, 0, 0, 0, 0, 0],
       [0xa1, 0x01, 0x00, 0, 0, 0, 0, 0, 0, 0]] :=
  ⟨session_success_trace h linux2hid src tgt input htgt hopen hwrite,
   snapshots_ten_bytes linux2hid hb _ initial_status [] initial_held.1 initial_held.2,
   char_events_untranslatable,
   (hi_reports linux2hid hb).1, (hi_reports linux2hid hb).2⟩

theorem C8_session_reports_witness :
    (1 : Nat) ≠ BDADDR_ANY ∧
    (snapshots sample_linux2hid initial_status (stream_events [72, 105])).drop 20 =
      [[0xa1, 0x01, 0x02, 0, 0, 0, 0, 0, 0, 0],
       [0xa1, 0x01, 0x02, 0, 11, 0, 0, 0, 0, 0],
       [0xa1, 0x01, 0x02, 0, 0, 0, 0, 0, 0, 0],
       [0xa1, 0x01, 0x00, 0, 0, 0, 0, 0, 0, 0],
       [0xa1, 0x01, 0x00, 0, 12, 0, 0, 0, 0, 0],
       [0xa1, 0x01, 0x00, 0, 0, 0, 0, 0, 0, 0],
       [0xa1, 0x01, 0x00, 0, 40, 0, 0, 0, 0, 0],
       [0xa1, 0x01, 0x00, 0, 0, 0, 0, 0, 0, 0]] :=
  ⟨by decide,
   (C8_session_reports good_host sample_linux2hid 0 1 [72, 105] (by decide) good_host_opens
      good_host_writes sample_linux2hid_byte).2.2.2.2⟩

set_option maxRecDepth 100000 in
/-- C9 at a failing input: the target is set, the payload is "Hi" and the
first open of the control channel fails. The `break` leaves only the event
loop of the first character; the second character opens both channels
again, the handshake is sent and reports are written. -/
theorem C9_connect_is_retried :
    (session first_connect_fails sample_linux2hid 0 1 [72, 105]).trace.take 8 =
      [io_call.l2cap_connect L2CAP_PSM_HIDP_CTRL (-1),
       io_call.l2cap_connect L2CAP_PSM_HIDP_CTRL 4,
       io_call.l2cap_connect L2CAP_PSM_HIDP_INTR 5,
       io_call.write 4 [0xa1, 0x13, 0x03] 3,
       io_call.write 4 [0xa1, 0x13, 0x02] 3,
       io_call.sleep 1,
       io_call.usleep 200000,
       io_call.write 5 [0xa1, 0x01, 0, 0, 42, 0, 0, 0, 0, 0] 10] := by
  decide

set_option maxRecDepth 100000 in
/-- C10 at a failing input: the target is set, the payload is "Hi", both
opens succeed and the first handshake write fails. The `break` leaves only
the event loop of the first character; from the second character on,
reports are written on the interrupt channel, and the channels are closed
only after the last character. -/
theorem C10_reports_after_failed_handshake :
    (session first_write_fails sample_linux2hid 0 1 [72, 105]).trace.take 5 =
      [io_call.l2cap_connect L2CAP_PSM_HIDP_CTRL 3,
       io_call.l2cap_connect L2CAP_PSM_HIDP_INTR 4,
       io_call.write 3 [0xa1, 0x13, 0x03] (-1),
       io_call.usleep 200000,
       io_call.write 4 [0xa1, 0x01, 0, 0, 42, 0, 0, 0, 0, 0] 10] ∧
    (session first_write_fails sample_linux2hid 0 1 [72, 105]).trace.length = 57 ∧
    (session first_write_fails sample_linux2hid 0 1 [72, 105]).trace.drop 55 =
      [io_call.close 3, io_call.close 4] := by
  decide

/-! ## Claims on failures and on the unset target -/

set_option maxRecDepth 100000 in
/-- C11 at a failing input: the target is set, the payload is "Hi", the
opens and the handshake succeed and the first report write fails. The
`break` leaves only the event loop of the first character; from the second
character on, reports are written on the interrupt channel again, and the
channels are closed only after the last character. -/
theorem C11_reports_after_failed_write :
    (session first_report_fails sample_linux2hid 0 1 [72, 105]).trace.take 10 =
      [io_call.l2cap_connect L2CAP_PSM_HIDP_CTRL 3,
       io_call.l2cap_connect L2CAP_PSM_HIDP_INTR 4,
       io_call.write 3 [0xa1, 0x13, 0x03] 3,
       io_call.write 3 [0xa1, 0x13, 0x02] 3,
       io_call.sleep 1,
       io_call.write 4 [0xa1, 0x01, 0, 0, 42, 0, 0, 0, 0, 0] (-1),
       io_call.usleep 200000,
       io_call.write 4 [0xa1, 0x01, 0, 0, 42, 0, 0, 0, 0, 0] 10,
       io_call.usleep 200000,
       io_call.write 4 [0xa1, 0x01, 0, 0, 0, 0, 0, 0, 0, 0] 10] ∧
    (session first_report_fails sample_linux2hid 0 1 [72, 105]).trace.length = 60 ∧
    (session first_report_fails sample_linux2hid 0 1 [72, 105]).trace.drop 58 =
      [io_call.close 3, io_call.close 4] := by
  decide

theorem event_loop_unset (h : host) (linux2hid : Nat → Nat) (src : Nat)
    (token_idx char_idx : Nat) (evs : List input_event_t) :
    ∀ (i : Nat) (s : session_state), s.control = -1 →
      (event_loop h linux2hid src BDADDR_ANY token_idx char_idx i evs s).control = -1 ∧
      (event_loop h linux2hid src BDADDR_ANY token_idx char_idx i evs s).intr = s.intr ∧
      (event_loop h linux2hid src BDADDR_ANY token_idx char_idx i evs s).trace = s.trace := by
  induction evs with
  | nil => intro i s hc; exact ⟨hc, rfl, rfl⟩
  | cons ev evs ih =>
    intro i s hc
    obtain ⟨sc, si, sst, str⟩ := s
    simp only at hc
    subst hc
    rw [event_loop]
    by_cases hr : (input_event linux2hid sst ev (-1) si).1 = 0
    · simp only [hr, if_true]
      exact ih (i + 1) _ rfl
    · have hb : bacmp BDADDR_ANY BDADDR_ANY = 0 := rfl
      simp only [hr, if_false, if_true, connect_host, hb, and_self]

theorem char_loop_unset (h : host) (linux2hid : Nat → Nat) (src : Nat)
    (token_idx : Nat) (cs : List Int) :
    ∀ (char_idx : Nat) (s : session_state), s.control = -1 →
      (char_loop h linux2hid src BDADDR_ANY token_idx char_idx cs s).control = -1 ∧
      (char_loop h linux2hid src BDADDR_ANY token_idx char_idx cs s).intr = s.intr ∧
      (char_loop h linux2hid src BDADDR_ANY token_idx char_idx cs s).trace = s.trace := by
  induction cs with
  | nil => intro ci s hc; exact ⟨hc, rfl, rfl⟩
  | cons c cs ih =>
    intro ci s hc
    rw [char_loop]
    by_cases h0 : c = 0
    · rw [if_pos h0]; exact ⟨hc, rfl, rfl⟩
    · rw [if_neg h0]
      have he := event_loop_unset h linux2hid src token_idx ci (char_events c) 0 s hc
      have hl := ih (ci + 1) _ he.1
      exact ⟨hl.1, hl.2.1.trans he.2.1, hl.2.2.trans he.2.2⟩

theorem token_loop_unset (h : host) (linux2hid : Nat → Nat) (src : Nat)
    (toks : List (List Int)) :
    ∀ (token_idx : Nat) (s : session_state), s.control = -1 →
      (token_loop h linux2hid src BDADDR_ANY token_idx toks s).control = -1 ∧
      (token_loop h linux2hid src BDADDR_ANY token_idx toks s).intr = s.intr ∧
      (token_loop h linux2hid src BDADDR_ANY token_idx toks s).trace = s.trace := by
  induction toks with
  | nil => intro ti s hc; exact ⟨hc, rfl, rfl⟩
  | cons tok toks ih =>
    intro ti s hc
    rw [token_loop]
    have he := char_loop_unset h linux2hid src ti tok 0 s hc
    have hl := ih (ti + 1) _ he.1
    exact ⟨hl.1, hl.2.1.trans he.2.1, hl.2.2.trans he.2.2⟩

/-- C12: when the target address is unset (`BDADDR_ANY`), for every host,
table, source address and payload the session makes no call to the outside
at all: no channel is opened, no handshake is sent, nothing is written (and
nothing is closed). -/
theorem C12_target_unset_no_io (h : host) (linux2hid : Nat → Nat) (src : Nat)
    (input : List Int) :
    (session h linux2hid src BDADDR_ANY input).trace = [] ∧
    (session h linux2hid src BDADDR_ANY input).control = -1 ∧
    (session h linux2hid src BDADDR_ANY input).intr = -1 := by
  have hl := token_loop_unset h linux2hid src [activation, input, [10]] 0
    { control := -1, intr := -1, st := initial_status, trace := [] } rfl
  unfold session
  simp only [hl.1, hl.2.1, hl.2.2, ne_eq, not_true_eq_false, if_false, and_self]

/-! ## Claims on the keyboard state of one character -/

set_option maxRecDepth 100000 in
theorem linux_codes_key_plain : ∀ n : Fin 128, modifier_switch (linux_codes n.val).key = 0 := by
  decide

theorem kb_right_shift_press (linux2hid : Nat → Nat) (k : Nat) :
    (input_event linux2hid (kb 0 k) (fill_event KEY_RIGHTSHIFT 1) (-1) (-1)).2 = kb 32 k := by
  simp [input_event, kb, fill_event, modifier_switch, EV_KEY, KEY_RIGHTSHIFT, KEY_LEFTCTRL,
    KEY_LEFTSHIFT, KEY_LEFTALT, KEY_LEFTMETA, KEY_RIGHTCTRL, HIDP_RIGHTSHIFT]

theorem kb_right_shift_release (linux2hid : Nat → Nat) (k : Nat) :
    (input_event linux2hid (kb 32 k) (fill_event KEY_RIGHTSHIFT 0) (-1) (-1)).2 = kb 0 k := by
  have e : (32 : Nat) &&& 223 = 0 := by decide
  simp [input_event, kb, fill_event, modifier_switch, EV_KEY, KEY_RIGHTSHIFT, KEY_LEFTCTRL,
    KEY_LEFTSHIFT, KEY_LEFTALT, KEY_LEFTMETA, KEY_RIGHTCTRL, HIDP_RIGHTSHIFT, e]

/-- The base key of a translatable character is a plain key with an event
code below 256. -/
theorem base_key_plain (c : Int) (ht : translatable c = true) :
    (linux_codes c.toNat).key < 256 ∧ modifier_switch (linux_codes c.toNat).key = 0 := by
  have hc := (translatable_iff c).mp ht
  have hn : c.toNat < 128 := by omega
  exact ⟨linux_codes_key_byte ⟨c.toNat, hn⟩, linux_codes_key_plain ⟨c.toNat, hn⟩⟩

/-- The events of each kind of translatable character. -/
theorem char_events_cases (c : Int) (ht : translatable c = true) :
    char_events c =
      (match (linux_codes c.toNat).shift with
       | no_shift =>
         [fill_event (linux_codes c.toNat).key 1, fill_event (linux_codes c.toNat).key 0]
       | left_shift =>
         [fill_event KEY_LEFTSHIFT 1, fill_event (linux_codes c.toNat).key 1,
          fill_event (linux_codes c.toNat).key 0, fill_event KEY_LEFTSHIFT 0]
       | right_shift =>
         [fill_event KEY_RIGHTSHIFT 1, fill_event (linux_codes c.toNat).key 1,
          fill_event (linux_codes c.toNat).key 0, fill_event KEY_RIGHTSHIFT 0]) := by
  rw [char_events_translatable c ht]
  cases hs : (linux_codes c.toNat).shift <;> simp [gen_keys, hs]

/-- C16: for every shifted translatable character (on a table of byte-sized
usage codes), the four events applied in order from the all-empty report
give the snapshots shift only, shift + key, shift only, all released: the
shift bit is set before the base key's usage code enters slot 0 and is still
set in the snapshot in which the key has left it. -/
theorem C16_shift_brackets_key (linux2hid : Nat → Nat) (hb : ∀ c, linux2hid c < 256)
    (c : Int) (ht : translatable c = true) (hs : (linux_codes c.toNat).shift ≠ no_shift) :
    snapshots linux2hid initial_status (char_events c) =
      [[0xa1, 0x01,
          if (linux_codes c.toNat).shift = left_shift then HIDP_LEFTSHIFT else HIDP_RIGHTSHIFT,
          0, 0, 0, 0, 0, 0, 0],
       [0xa1, 0x01,
          if (linux_codes c.toNat).shift = left_shift then HIDP_LEFTSHIFT else HIDP_RIGHTSHIFT,
          0, linux2hid (linux_codes c.toNat).key, 0, 0, 0, 0, 0],
       [0xa1, 0x01,
          if (linux_codes c.toNat).shift = left_shift then HIDP_LEFTSHIFT else HIDP_RIGHTSHIFT,
          0, 0, 0, 0, 0, 0, 0],
       [0xa1, 0x01, 0, 0, 0, 0, 0, 0, 0, 0]] := by
  obtain ⟨hk, hm⟩ := base_key_plain c ht
  rw [char_events_cases c ht, initial_status_kb]
  cases hsh : (linux_codes c.toNat).shift
  · exact absurd hsh hs
  · simp only [snapshots, kb_left_shift_press, kb_left_shift_release,
      kb_press linux2hid hb 2 _ hk hm, kb_release linux2hid 2 _ hk hm]
    simp [report_bytes, kb, HIDP_LEFTSHIFT]
  · simp only [snapshots, kb_right_shift_press, kb_right_shift_release,
      kb_press linux2hid hb 32 _ hk hm, kb_release linux2hid 32 _ hk hm]
    simp [report_bytes, kb, HIDP_RIGHTSHIFT]

theorem C16_shift_brackets_key_witness :
    translatable 72 = true ∧ (linux_codes (72 : Int).toNat).shift ≠ no_shift ∧
    snapshots sample_linux2hid initial_status (char_events 72) =
      [[0xa1, 0x01, 0x02, 0, 0, 0, 0, 0, 0, 0],
       [0xa1, 0x01, 0x02, 0, 11, 0, 0, 0, 0, 0],
       [0xa1, 0x01, 0x02, 0, 0, 0, 0, 0, 0, 0],
       [0xa1, 0x01, 0, 0, 0, 0, 0, 0, 0, 0]] :=
  ⟨by decide, by decide,
   C16_shift_brackets_key sample_linux2hid sample_linux2hid_byte 72 (by decide) (by decide)⟩

/-- The events of any character bring the empty keyboard back to empty. -/
theorem char_events_restore (linux2hid : Nat → Nat) (hb : ∀ c, linux2hid c < 256) (c : Int) :
    apply_events linux2hid (kb 0 0) (char_events c) = kb 0 0 := by
  by_cases ht : translatable c = true
  · obtain ⟨hk, hm⟩ := base_key_plain c ht
    rw [char_events_cases c ht]
    cases hsh : (linux_codes c.toNat).shift
    · simp only [apply_events, kb_press linux2hid hb 0 _ hk hm, kb_release linux2hid 0 _ hk hm]
    · simp only [apply_events, kb_left_shift_press, kb_left_shift_release,
        kb_press linux2hid hb 2 _ hk hm, kb_release linux2hid 2 _ hk hm]
    · simp only [apply_events, kb_right_shift_press, kb_right_shift_release,
        kb_press linux2hid hb 32 _ hk hm, kb_release linux2hid 32 _ hk hm]
  · have hf : translatable c = false := by simpa using ht
    rw [char_events_untranslatable c hf]
    rfl

theorem chars_restore (linux2hid : Nat → Nat) (hb : ∀ c, linux2hid c < 256) (cs : List Int) :
    apply_events linux2hid (kb 0 0) (cs.flatMap char_events) = kb 0 0 := by
  induction cs with
  | nil => rfl
  | cons c cs ih =>
    rw [List.flatMap_cons, apply_events_append, char_events_restore linux2hid hb c, ih]

theorem paced_writes_two (intr : Int) (rs : List (List Nat)) (r1 r2 : List Nat) :
    paced_writes intr (rs ++ [r1, r2]) =
      paced_writes intr rs ++
        [io_call.usleep 200000, io_call.write intr r1 (r1.length : Int),
         io_call.usleep 200000, io_call.write intr r2 (r2.length : Int)] := by
  simp [paced_writes]

/-- The reports of every stream end with the press and the release of
Enter, the release giving the all-released report. -/
theorem snapshots_stream_end (linux2hid : Nat → Nat) (hb : ∀ c, linux2hid c < 256)
    (input : List Int) :
    ∃ (r : List Nat) (rs : List (List Nat)),
      snapshots linux2hid initial_status (stream_events input) =
        r :: (rs ++ [[0xa1, 0x01, 0, 0, linux2hid KEY_ENTER, 0, 0, 0, 0, 0], released_report]) := by
  have h10 : ([10] : List Int).flatMap char_events =
      [fill_event KEY_ENTER 1, fill_event KEY_ENTER 0] := by decide
  have hre : apply_events linux2hid (kb 0 0)
      (fill_event KEY_BACKSPACE 1 :: fill_event KEY_BACKSPACE 0 ::
        ((List.replicate 9 (27 : Int)).flatMap char_events ++
          (c_string input).flatMap char_events)) = kb 0 0 := by
    have := chars_restore linux2hid hb (27 :: (List.replicate 9 (27 : Int) ++ c_string input))
    have h27 : char_events 27 = [fill_event KEY_BACKSPACE 1, fill_event KEY_BACKSPACE 0] := by
      decide
    simpa [List.flatMap_cons, List.flatMap_append, h27] using this
  rw [stream_events_eq, h10, initial_status_kb]
  have e : fill_event KEY_BACKSPACE 1 :: fill_event KEY_BACKSPACE 0 ::
      ((List.replicate 9 (27 : Int)).flatMap char_events ++
        ((c_string input).flatMap char_events ++
          [fill_event KEY_ENTER 1, fill_event KEY_ENTER 0])) =
      (fill_event KEY_BACKSPACE 1 :: fill_event KEY_BACKSPACE 0 ::
        ((List.replicate 9 (27 : Int)).flatMap char_events ++
          (c_string input).flatMap char_events)) ++
        [fill_event KEY_ENTER 1, fill_event KEY_ENTER 0] := by simp
  rw [e, snapshots_append, hre]
  generalize (List.replicate 9 (27 : Int)).flatMap char_events ++
    (c_string input).flatMap char_events = X
  refine ⟨report_bytes
      (input_event linux2hid (kb 0 0) (fill_event KEY_BACKSPACE 1) (-1) (-1)).2.report,
    snapshots linux2hid
    (input_event linux2hid (kb 0 0) (fill_event KEY_BACKSPACE 1) (-1) (-1)).2
    (fill_event KEY_BACKSPACE 0 :: X), ?_⟩
  simp only [snapshots, List.cons_append, kb_press linux2hid hb 0 KEY_ENTER (by decide) (by decide),
    kb_release linux2hid 0 KEY_ENTER (by decide) (by decide)]
  simp [report_bytes, kb, released_report]

/-- C20: on a table of byte-sized usage codes, the complete event sequence
of every character (translatable or not), applied to the all-empty report,
brings the report back to the all-empty state, and so does the sequence of
any string of characters; hence in a session where the target is set and
every open and write succeeds the state at the end is the all-empty one
and the last call before the two closes is the write of the all-released
report. -/
theorem C20_keyboard_returns_to_empty (h : host) (linux2hid : Nat → Nat) (src tgt : Nat)
    (input : List Int) (c : Int) (cs : List Int) (htgt : tgt ≠ BDADDR_ANY)
    (hopen : ∀ t s d p, h.l2cap_connect t s d p ≠ -1)
    (hwrite : ∀ t fd buf, h.write t fd buf = (buf.length : Int))
    (hb : ∀ c, linux2hid c < 256) :
    apply_events linux2hid initial_status (char_events c) = initial_status ∧
    apply_events linux2hid initial_status (cs.flatMap char_events) = initial_status ∧
    (session h linux2hid src tgt input).st = initial_status ∧
    ∃ before : List io_call,
      (session h linux2hid src tgt input).trace =
        before ++ [io_call.write (first_intr h src tgt) released_report 10,
                   io_call.close (first_control h src tgt),
                   io_call.close (first_intr h src tgt)] := by
  refine ⟨?_, ?_, ?_, ?_⟩
  · rw [initial_status_kb]; exact char_events_restore linux2hid hb c
  · rw [initial_status_kb]; exact chars_restore linux2hid hb cs
  · unfold session
    simp only [token_loop_success h linux2hid src tgt input htgt hopen hwrite]
    unfold stream_events
    rw [initial_status_kb]
    exact chars_restore linux2hid hb (stream input)
  · obtain ⟨r, rs, hs⟩ := snapshots_stream_end linux2hid hb input
    rw [session_success_trace h linux2hid src tgt input htgt hopen hwrite, hs]
    refine ⟨opening_calls (first_control h src tgt) (first_intr h src tgt) ++
      io_call.write (first_intr h src tgt) r (r.length : Int) ::
        (paced_writes (first_intr h src tgt) rs ++
          [io_call.usleep 200000,
           io_call.write (first_intr h src tgt)
             [0xa1, 0x01, 0, 0, linux2hid KEY_ENTER, 0, 0, 0, 0, 0] 10,
           io_call.usleep 200000]), ?_⟩
    simp [report_calls, paced_writes_two, released_report]

theorem C20_keyboard_returns_to_empty_witness :
    (1 : Nat) ≠ BDADDR_ANY ∧
    apply_events sample_linux2hid initial_status (char_events 72) = initial_status ∧
    (session good_host sample_linux2hid 0 1 [72, 105]).st = initial_status :=
  ⟨by decide,
   (C20_keyboard_returns_to_empty good_host sample_linux2hid 0 1 [72, 105] 72 [] (by decide)
      good_host_opens good_host_writes sample_linux2hid_byte).1,
   (C20_keyboard_returns_to_empty good_host sample_linux2hid 0 1 [72, 105] 72 [] (by decide)
      good_host_opens good_host_writes sample_linux2hid_byte).2.2.1⟩

/-! ## Claims on the preamble and on the list model -/

theorem snapshots_pairs (linux2hid : Nat → Nat) (hb : ∀ c, linux2hid c < 256)
    (c : Nat) (hc : c < 256) (hm : modifier_switch c = 0) (n : Nat) :
    snapshots linux2hid (kb 0 0)
        (List.replicate n [fill_event c 1, fill_event c 0]).flatten =
      (List.replicate n [single_key_report (linux2hid c), released_report]).flatten := by
  induction n with
  | zero => rfl
  | succ n ih =>
    rw [List.replicate_succ, List.flatten_cons, snapshots_append, List.replicate_succ,
      List.flatten_cons]
    simp only [apply_events, snapshots, kb_press linux2hid hb 0 c hc hm,
      kb_release linux2hid 0 c hc hm, ih]
    simp [report_bytes, kb, single_key_report, released_report]

/-- C17, the claim refuted: character 27 is mapped to the Backspace key,
which is not the Escape key. -/
theorem C17_preamble_is_backspace :
    linux_codes 27 = key_comb.mk KEY_BACKSPACE no_shift ∧
    char_events 27 = [fill_event KEY_BACKSPACE 1, fill_event KEY_BACKSPACE 0] ∧
    KEY_BACKSPACE ≠ KEY_ESC := by
  decide

/-- C17 (as the code has it): the preamble character (code 27) translates
to the Backspace key with no shift, so a session whose target is set and in
which every open and write succeeds begins, after the opens and the
handshake, with 10 Backspace press/release report pairs: the first 20
reports alternate between the report whose only pressed key is the
Backspace key's usage code (no modifiers) and the all-released report. -/
theorem C17_preamble_reports (h : host) (linux2hid : Nat → Nat) (src tgt : Nat)
    (input : List Int) (htgt : tgt ≠ BDADDR_ANY)
    (hopen : ∀ t s d p, h.l2cap_connect t s d p ≠ -1)
    (hwrite : ∀ t fd buf, h.write t fd buf = (buf.length : Int))
    (hb : ∀ c, linux2hid c < 256) :
    linux_codes 27 = key_comb.mk KEY_BACKSPACE no_shift ∧
    ∃ later : List (List Nat),
      (session h linux2hid src tgt input).trace =
        opening_calls (first_control h src tgt) (first_intr h src tgt) ++
        report_calls (first_intr h src tgt)
          ((List.replicate 10
              [single_key_report (linux2hid KEY_BACKSPACE), released_report]).flatten ++
            later) ++
        [io_call.close (first_control h src tgt), io_call.close (first_intr h src tgt)] := by
  refine ⟨by decide, ?_⟩
  have hact : activation.flatMap char_events =
      (List.replicate 10 [fill_event KEY_BACKSPACE 1, fill_event KEY_BACKSPACE 0]).flatten := by
    decide
  have hs : stream_events input =
      (List.replicate 10 [fill_event KEY_BACKSPACE 1, fill_event KEY_BACKSPACE 0]).flatten ++
        ((c_string input).flatMap char_events ++ ([10] : List Int).flatMap char_events) := by
    unfold stream_events stream
    rw [List.flatMap_append, List.flatMap_append, hact, List.append_assoc]
  rw [session_success_trace h linux2hid src tgt input htgt hopen hwrite, hs, snapshots_append,
    initial_status_kb, snapshots_pairs linux2hid hb KEY_BACKSPACE (by decide) (by decide) 10]
  exact ⟨_, rfl⟩

theorem C17_preamble_reports_witness :
    (1 : Nat) ≠ BDADDR_ANY ∧ linux_codes 27 = key_comb.mk KEY_BACKSPACE no_shift :=
  ⟨by decide,
   (C17_preamble_reports good_host sample_linux2hid 0 1 [72, 105] (by decide) good_host_opens
      good_host_writes sample_linux2hid_byte).1⟩

theorem getD_append_left_lt (a b : List Nat) (i : Nat) (h : i < a.length) :
    (a ++ b).getD i 0 = a.get ⟨i, h⟩ := by
  rw [List.getD_eq_getElem?_getD, List.getElem?_append_left h, List.getElem?_eq_getElem h]
  rfl

theorem getD_append_right_ge (a b : List Nat) (k : Nat) :
    (a ++ b).getD (a.length + k) 0 = b.getD k 0 := by
  rw [List.getD_eq_getElem?_getD, List.getElem?_append_right (by omega),
    List.getD_eq_getElem?_getD]
  simp

/-- A 6-slot array whose occupied slots are contiguous from index 0 and
duplicate-free is its held codes followed by zeros, and the held codes are
in order. -/
theorem slots_of_invariant (key : List Nat) (hl : key.length = 6)
    (hc : contiguous_slots key) (hd : no_duplicate_slots key) :
    key = slots (held_codes key) ∧ HeldOk (held_codes key) := by
  have hsplit : held_codes key ++ key.dropWhile (fun k => decide (k ≠ 0)) = key :=
    List.takeWhile_append_dropWhile _ _
  generalize hocc : held_codes key = occ at hsplit
  generalize hdr : key.dropWhile (fun k => decide (k ≠ 0)) = d at hsplit
  have hlen : occ.length + d.length = 6 := by
    rw [← hl, ← hsplit, List.length_append]
  have h0occ : 0 ∉ occ := by
    intro hm
    rw [← hocc] at hm
    have := List.mem_takeWhile_imp hm
    simp at this
  have hdzero : ∀ b ∈ d, b = 0 := by
    intro b hb
    obtain ⟨k, hk, rfl⟩ := List.getElem_of_mem hb
    have hne : key.dropWhile (fun k => decide (k ≠ 0)) ≠ [] := by
      rw [hdr]; intro e; rw [e] at hk; simp at hk
    have hhead := List.head_dropWhile_not (fun k => decide (k ≠ 0)) key hne
    have hd0 : d.getD 0 0 = 0 := by
      subst hdr
      cases hdd : key.dropWhile (fun k => decide (k ≠ 0)) with
      | nil => exact absurd hdd hne
      | cons x xs =>
        simp only [hdd, List.head_cons] at hhead
        simpa using hhead
    have hk0 : key.getD occ.length 0 = 0 := by
      have := getD_append_right_ge occ d 0
      rw [hsplit, Nat.add_zero] at this
      rw [this]; exact hd0
    have hkk : key.getD (occ.length + k) 0 = d[k] := by
      have := getD_append_right_ge occ d k
      rw [hsplit] at this
      rw [this, List.getD_eq_getElem?_getD, List.getElem?_eq_getElem hk]
      rfl
    by_cases hk' : k = 0
    · subst hk'
      rw [← hkk, Nat.add_zero]; exact hk0
    · rw [← hkk]
      exact hc (occ.length + k) (by omega) occ.length (by omega) hk0
  have hdrep : d = List.replicate (6 - occ.length) 0 := by
    have := List.eq_replicate_iff.mpr ⟨rfl, hdzero⟩
    rw [this]
    congr 1
    omega
  have hnd : occ.Nodup := by
    rw [List.nodup_iff_getElem?_ne_getElem?]
    intro i j hij hj
    have hi : i < occ.length := by omega
    have e1 := getD_append_left_lt occ d i hi
    have e2 := getD_append_left_lt occ d j hj
    rw [hsplit] at e1 e2
    have hne : key.getD i 0 ≠ 0 := by
      rw [e1]
      intro e
      exact h0occ (e ▸ List.get_mem occ i hi)
    have := hd j (by omega) i hij hne
    rw [e1, e2] at this
    rw [List.getElem?_eq_getElem hi, List.getElem?_eq_getElem hj]
    intro e
    apply this
    simpa using e
  refine ⟨?_, by omega, h0occ, hnd⟩
  rw [← hsplit, hdrep]
  rfl

/-- C18: on every state whose 6 slots are duplicate-free with the occupied
ones contiguous from index 0, and for every plain key whose usage code X is
a byte (zero or not), the slot update of `input_event` equals the ordered
capacity-6 list model padded with zeros: a press leaves the list of held
codes unchanged if X is in it, appends X if it is absent and fewer than 6
codes are held, and is dropped if 6 are held (`press_model`); a release
erases X, the later codes moving left in order, and changes nothing if X is
absent (`release_model`). -/
theorem C18_slot_update_is_list_model (linux2hid : Nat → Nat) (st : status) (c : Nat)
    (value : Int) (ctrl intr : Int)
    (hl : st.report.key.length = 6) (hcont : contiguous_slots st.report.key)
    (hdup : no_duplicate_slots st.report.key)
    (hc : c < 256) (hm : modifier_switch c = 0) (hXb : linux2hid c < 256) :
    (input_event linux2hid st ⟨EV_KEY, c, value⟩ ctrl intr).2.report.key =
      slots (if value ≠ 0 then press_model (held_codes st.report.key) (linux2hid c)
             else release_model (held_codes st.report.key) (linux2hid c)) := by
  obtain ⟨hk, hocc⟩ := slots_of_invariant st.report.key hl hcont hdup
  rw [input_event_press_key linux2hid st c value ctrl intr hc hm]
  simp only []
  generalize held_codes st.report.key = occ at hk hocc
  rw [hk]
  by_cases hv : value = 0
  · subst hv
    simp only [ne_eq, not_true_eq_false, if_false]
    exact key_loop_release (linux2hid c) occ hocc
  · simp only [ne_eq, hv, not_false_eq_true, if_true]
    exact key_loop_press (linux2hid c) value occ hv hXb hocc

theorem C18_slot_update_is_list_model_witness :
    contiguous_slots [4, 5, 6, 0, 0, 0] ∧ no_duplicate_slots [4, 5, 6, 0, 0, 0] ∧
    (input_event sample_linux2hid ⟨⟨0xa1, 1, 0, 0, [4, 5, 6, 0, 0, 0]⟩⟩
      ⟨EV_KEY, KEY_B, 0⟩ 3 4).2.report.key = [4, 6, 0, 0, 0, 0] :=
  ⟨by unfold contiguous_slots; decide, by unfold no_duplicate_slots; decide,
   C18_slot_update_is_list_model sample_linux2hid ⟨⟨0xa1, 1, 0, 0, [4, 5, 6, 0, 0, 0]⟩⟩
     KEY_B 0 3 4 rfl (by unfold contiguous_slots; decide)
     (by unfold no_duplicate_slots; decide) (by decide) (by decide) (by decide)⟩

/-! ## Invariants of a run on an arbitrary host -/

theorem event_loop_preserves (h : host) (linux2hid : Nat → Nat) (src tgt : Nat)
    (Inv : session_state → Prop) (hI : run_invariant h src tgt Inv)
    (token_idx char_idx : Nat) (evs : List input_event_t) :
    ∀ (i : Nat) (s : session_state), Inv s →
      Inv (event_loop h linux2hid src tgt token_idx char_idx i evs s) := by
  induction evs with
  | nil => intro i s hs; exact hs
  | cons ev evs ih =>
    intro i s hs
    rw [event_loop]
    have hs1 := hI.status_change s (input_event linux2hid s.st ev s.control s.intr).2 hs
    by_cases hr : (input_event linux2hid s.st ev s.control s.intr).1 = 0
    · simp only [hr, if_true]
      exact ih (i + 1) _ hs1
    · simp only [hr, if_false]
      by_cases hc : s.control = -1
      · simp only [hc, if_true]
        have hconn := hI.connect
          { control := s.control, intr := s.intr,
            st := (input_event linux2hid s.st ev s.control s.intr).2, trace := s.trace } hc hs1
        simp only [hc] at hconn
        by_cases hbrk : (connect_host h src tgt
            { control := -1, intr := s.intr,
              st := (input_event linux2hid s.st ev (-1) s.intr).2, trace := s.trace }).2 = true
        · simp only [hbrk, if_true]
          exact hconn.1
        · have hbf : (connect_host h src tgt
              { control := -1, intr := s.intr,
                st := (input_event linux2hid s.st ev (-1) s.intr).2, trace := s.trace }).2
              = false := by simpa using hbrk
          simp only [hbf, Bool.false_eq_true, if_false]
          have hctl := hconn.2 hbf
          split_ifs
          · exact hI.report _ _ _ hctl hconn.1 (by tauto)
          · exact ih (i + 1) _ (hI.report _ _ _ hctl hconn.1 (by tauto))
          · exact hI.report _ _ _ hctl hconn.1 (by tauto)
          · exact ih (i + 1) _ (hI.report _ _ _ hctl hconn.1 (by tauto))
      · simp only [hc, if_false, Bool.false_eq_true]
        have hrep := hI.report
          { control := s.control, intr := s.intr,
            st := (input_event linux2hid s.st ev s.control s.intr).2, trace := s.trace }
        split_ifs
        · exact hrep _ _ hc hs1 (by tauto)
        · exact ih (i + 1) _ (hrep _ _ hc hs1 (by tauto))
        · exact hrep _ _ hc hs1 (by tauto)
        · exact ih (i + 1) _ (hrep _ _ hc hs1 (by tauto))

theorem char_loop_preserves (h : host) (linux2hid : Nat → Nat) (src tgt : Nat)
    (Inv : session_state → Prop) (hI : run_invariant h src tgt Inv)
    (token_idx : Nat) (cs : List Int) :
    ∀ (char_idx : Nat) (s : session_state), Inv s →
      Inv (char_loop h linux2hid src tgt token_idx char_idx cs s) := by
  induction cs with
  | nil => intro ci s hs; exact hs
  | cons c cs ih =>
    intro ci s hs
    rw [char_loop]
    split_ifs
    · exact hs
    · exact ih (ci + 1) _ (event_loop_preserves h linux2hid src tgt Inv hI token_idx ci _ 0 s hs)

theorem token_loop_preserves (h : host) (linux2hid : Nat → Nat) (src tgt : Nat)
    (Inv : session_state → Prop) (hI : run_invariant h src tgt Inv)
    (toks : List (List Int)) :
    ∀ (token_idx : Nat) (s : session_state), Inv s →
      Inv (token_loop h linux2hid src tgt token_idx toks s) := by
  induction toks with
  | nil => intro ti s hs; exact hs
  | cons tok toks ih =>
    intro ti s hs
    rw [token_loop]
    exact ih (ti + 1) _ (char_loop_preserves h linux2hid src tgt Inv hI ti tok 0 s hs)

theorem channels_after_append (t1 t2 : List io_call) :
    ∀ o : List (Int × Nat),
      channels_after o (t1 ++ t2) =
        (channels_after o t1).bind (fun o2 => channels_after o2 t2) := by
  induction t1 with
  | nil => intro o; rfl
  | cons c t1 ih =>
    intro o
    rw [List.cons_append]
    cases c with
    | l2cap_connect psm ret =>
      simp only [channels_after]
      split_ifs
      · exact ih o
      · exact ih _
    | write fd buf ret =>
      simp only [channels_after]
      split_ifs
      · exact ih o
      · exact ih o
      · rfl
    | sleep n => simp only [channels_after]; exact ih o
    | usleep n => simp only [channels_after]; exact ih o
    | close fd =>
      simp only [channels_after]
      split_ifs
      · exact ih _
      · rfl

theorem report_not_handshake (r : key_report) : is_handshake (report_bytes r) = false := by
  simp [is_handshake, report_bytes]

theorem channels_run_invariant (h : host) (src tgt : Nat) :
    run_invariant h src tgt channels_inv := by
  constructor
  · intro s st2 hs; exact hs
  · intro s hc hs
    rcases hs with ⟨_, hi, ht⟩ | ⟨hn, _, _⟩
    · obtain ⟨sc, si, sst, str⟩ := s
      simp only at hc hi ht
      subst hc hi
      unfold connect_host
      by_cases hb : bacmp tgt BDADDR_ANY = 0
      · simp only [hb, if_true]
        exact ⟨Or.inl ⟨rfl, rfl, ht⟩, fun hf => by simp at hf⟩
      · simp only [hb, if_false]
        by_cases h1 : h.l2cap_connect str src tgt L2CAP_PSM_HIDP_CTRL = -1
        · simp only [h1, if_true]
          refine ⟨Or.inl ⟨rfl, rfl, ?_⟩, fun hf => by simp at hf⟩
          simp [channels_after_append, ht, channels_after]
        · simp only [h1, if_false]
          by_cases h2 : h.l2cap_connect
              (str ++ [io_call.l2cap_connect L2CAP_PSM_HIDP_CTRL
                (h.l2cap_connect str src tgt L2CAP_PSM_HIDP_CTRL)])
              src tgt L2CAP_PSM_HIDP_INTR = -1
          · simp only [h2, if_true]
            refine ⟨Or.inl ⟨rfl, rfl, ?_⟩, fun hf => by simp at hf⟩
            simp [channels_after_append, ht, channels_after, h1]
          · simp only [h2, if_false]
            refine ⟨Or.inr ⟨h1, h2, ?_⟩, fun _ => h1⟩
            simp only [hello]
            split_ifs <;>
              simp [channels_after_append, ht, channels_after, h1, h2, is_handshake]
    · exact absurd hc hn
  · intro s t3 w hc hs ht3
    rcases hs with ⟨h1, _, _⟩ | ⟨hn, hi, ht⟩
    · exact absurd h1 hc
    · refine Or.inr ⟨hn, hi, ?_⟩
      rcases ht3 with rfl | rfl <;>
        simp [channels_after_append, ht, channels_after, report_not_handshake]

/-- C13: for every run of `session`, whatever the host answers to the opens
and writes, the trace of calls obeys the channel rules (`channels_after`
never fails: every `close` names a descriptor that is open at that point
and closes one channel, every report write goes to an interrupt channel
that is open at that point) and no channel is left open at the end: every
channel opened with success is closed exactly once before `session`
returns. -/
theorem C13_channels_closed_once (h : host) (linux2hid : Nat → Nat) (src tgt : Nat)
    (input : List Int) :
    channels_after [] (session h linux2hid src tgt input).trace = some [] := by
  have h0 : channels_inv { control := -1, intr := -1, st := initial_status, trace := [] } :=
    Or.inl ⟨rfl, rfl, rfl⟩
  have h1 := token_loop_preserves h linux2hid src tgt channels_inv
    (channels_run_invariant h src tgt) [activation, input, [10]] 0 _ h0
  unfold session
  simp only []
  generalize token_loop h linux2hid src tgt 0 [activation, input, [10]]
    { control := -1, intr := -1, st := initial_status, trace := [] } = s1 at h1
  rcases h1 with ⟨hc, hi, ht⟩ | ⟨hc, hi, ht⟩
  · simp only [hc, hi, ne_eq, not_true_eq_false, if_false]
    exact ht
  · simp only [hc, hi, ne_eq, not_false_eq_true, if_true]
    simp [channels_after_append, ht, channels_after, List.eraseP_cons]

theorem handshake_after_append (t1 t2 : List io_call) :
    ∀ s : handshake_state,
      handshake_after s (t1 ++ t2) =
        (handshake_after s t1).bind (fun s2 => handshake_after s2 t2) := by
  induction t1 with
  | nil => intro s; rfl
  | cons c t1 ih =>
    intro s
    rw [List.cons_append]
    cases c with
    | l2cap_connect psm ret =>
      simp only [handshake_after]
      split_ifs
      · exact ih _
      · exact ih s
    | write fd buf ret =>
      simp only [handshake_after]
      split_ifs
      · exact ih _
      · rfl
      · exact ih _
      · rfl
      · exact ih _
    | sleep n => simp only [handshake_after]; exact ih s
    | usleep n => simp only [handshake_after]; exact ih s
    | close fd => simp only [handshake_after]; exact ih _

theorem report_bytes_ne_first (r : key_report) : report_bytes r ≠ [0xa1, 0x13, 0x03] := by
  simp [report_bytes]

theorem report_bytes_ne_second (r : key_report) : report_bytes r ≠ [0xa1, 0x13, 0x02] := by
  simp [report_bytes]

theorem psm_intr_ne_ctrl : L2CAP_PSM_HIDP_INTR ≠ L2CAP_PSM_HIDP_CTRL := by decide

theorem handshake_run_invariant (h : host) (src tgt : Nat) :
    run_invariant h src tgt handshake_inv := by
  constructor
  · intro s st2 hs; exact hs
  · intro s hc hs
    rcases hs with ⟨_, ht⟩ | ⟨hn, _⟩
    · obtain ⟨sc, si, sst, str⟩ := s
      simp only at hc ht
      subst hc
      unfold connect_host
      by_cases hb : bacmp tgt BDADDR_ANY = 0
      · simp only [hb, if_true]
        exact ⟨Or.inl ⟨rfl, ht⟩, fun hf => by simp at hf⟩
      · simp only [hb, if_false]
        generalize h.l2cap_connect str src tgt L2CAP_PSM_HIDP_CTRL = c
        by_cases h1 : c = -1
        · simp only [h1, if_true]
          refine ⟨Or.inl ⟨rfl, ?_⟩, fun hf => by simp at hf⟩
          simp only [handshake_after_append, ht, Option.some_bind]
          simp [handshake_after]
        · simp only [h1, if_false]
          generalize h.l2cap_connect (str ++ [io_call.l2cap_connect L2CAP_PSM_HIDP_CTRL c])
            src tgt L2CAP_PSM_HIDP_INTR = i
          by_cases h2 : i = -1
          · simp only [h2, if_true]
            refine ⟨Or.inl ⟨rfl, ?_⟩, fun hf => by simp at hf⟩
            simp only [handshake_after_append, ht, Option.some_bind]
            simp [handshake_after, handshake_start, h1, psm_intr_ne_ctrl]
          · simp only [h2, if_false]
            refine ⟨Or.inr ⟨h1, ?_⟩, fun _ => h1⟩
            simp only [hello]
            split_ifs <;>
              (simp only [handshake_after_append, ht, Option.some_bind]
               simp [handshake_after, handshake_start, h1, h2, psm_intr_ne_ctrl])
    · exact absurd hc hn
  · intro s t3 w hc hs ht3
    rcases hs with ⟨h1, _⟩ | ⟨hn, hs, ht, hf, hsnd⟩
    · exact absurd h1 hc
    · refine Or.inr ⟨hn, { hs with reports := hs.reports + 1 }, ?_, hf, hsnd⟩
      rcases ht3 with rfl | rfl <;>
        (simp only [handshake_after_append, ht, Option.some_bind]
         simp [handshake_after, report_bytes_ne_first, report_bytes_ne_second])

theorem handshake_after_quiet (t : List io_call) :
    (∀ c ∈ t, quiet_call c) → ∀ hs : handshake_state,
      ∃ hs2, handshake_after hs t = some hs2 ∧ hs2.first = hs.first ∧
        hs2.second = hs.second := by
  induction t with
  | nil => intro _ hs; exact ⟨hs, rfl, rfl, rfl⟩
  | cons c t ih =>
    intro hq hs
    have hc := hq c (List.mem_cons_self c t)
    have ht := ih (fun d hd => hq d (List.mem_cons_of_mem c hd))
    cases c with
    | l2cap_connect psm ret => exact absurd hc (by simp [quiet_call])
    | write fd buf ret =>
      simp only [quiet_call] at hc
      simp only [handshake_after, hc.1, hc.2, if_false]
      exact ht _
    | sleep n => simp only [handshake_after]; exact ht hs
    | usleep n => simp only [handshake_after]; exact ht hs
    | close fd => simp only [handshake_after]; exact ht _

theorem snapshots_mem (linux2hid : Nat → Nat) (evs : List input_event_t) :
    ∀ (st : status) (r : List Nat), r ∈ snapshots linux2hid st evs →
      ∃ kr : key_report, r = report_bytes kr := by
  induction evs with
  | nil => intro st r hr; cases hr
  | cons ev evs ih =>
    intro st r hr
    simp only [snapshots, List.mem_cons] at hr
    rcases hr with rfl | hr
    · exact ⟨_, rfl⟩
    · exact ih _ r hr

theorem report_calls_quiet (linux2hid : Nat → Nat) (evs : List input_event_t) (st : status)
    (intr : Int) (closes : List Int) :
    ∀ c ∈ report_calls intr (snapshots linux2hid st evs) ++ closes.map io_call.close,
      quiet_call c := by
  intro c hc
  rw [List.mem_append] at hc
  rcases hc with hc | hc
  · have hw : ∃ r ∈ snapshots linux2hid st evs,
        c = io_call.usleep 200000 ∨ c = io_call.write intr r (r.length : Int) := by
      cases hsn : snapshots linux2hid st evs with
      | nil => rw [hsn] at hc; cases hc
      | cons r rs =>
        rw [hsn] at hc
        simp only [report_calls, paced_writes, List.mem_cons, List.mem_flatMap,
          List.mem_singleton, List.not_mem_nil, or_false] at hc
        rcases hc with rfl | ⟨r2, hr2, hc⟩
        · exact ⟨r, List.mem_cons_self r rs, Or.inr rfl⟩
        · exact ⟨r2, List.mem_cons_of_mem r hr2, hc⟩
    obtain ⟨r, hr, hcr⟩ := hw
    obtain ⟨kr, rfl⟩ := snapshots_mem linux2hid evs st r hr
    rcases hcr with rfl | rfl
    · trivial
    · exact ⟨report_bytes_ne_first kr, report_bytes_ne_second kr⟩
  · rw [List.mem_map] at hc
    obtain ⟨fd, _, rfl⟩ := hc
    trivial

/-- C14: in every run of `session`, whatever the host answers, the trace
obeys the handshake rules of `handshake_after`: each of the two handshake
messages is written at most once, `A1 13 03` before `A1 13 02`, each to an
open control channel and before any report is written; and in a run whose
target is set and in which every open and write succeeds each of them is
written exactly once. -/
theorem C14_handshake_once_before_reports (h : host) (linux2hid : Nat → Nat) (src tgt : Nat)
    (input : List Int) :
    (∃ hs, handshake_after handshake_start (session h linux2hid src tgt input).trace = some hs ∧
      hs.first ≤ 1 ∧ hs.second ≤ 1) ∧
    (tgt ≠ BDADDR_ANY → (∀ t s d p, h.l2cap_connect t s d p ≠ -1) →
      (∀ t fd buf, h.write t fd buf = (buf.length : Int)) →
      ∃ hs, handshake_after handshake_start (session h linux2hid src tgt input).trace = some hs ∧
        hs.first = 1 ∧ hs.second = 1) := by
  constructor
  · have h0 : handshake_inv { control := -1, intr := -1, st := initial_status, trace := [] } :=
      Or.inl ⟨rfl, rfl⟩
    have h1 := token_loop_preserves h linux2hid src tgt handshake_inv
      (handshake_run_invariant h src tgt) [activation, input, [10]] 0 _ h0
    unfold session
    simp only []
    generalize token_loop h linux2hid src tgt 0 [activation, input, [10]]
      { control := -1, intr := -1, st := initial_status, trace := [] } = s1 at h1
    have hfin : ∃ hs, handshake_after handshake_start s1.trace = some hs ∧
        hs.first ≤ 1 ∧ hs.second ≤ 1 := by
      rcases h1 with ⟨_, ht⟩ | ⟨_, hs, ht, hf, hsn⟩
      · exact ⟨handshake_start, ht, by decide, by decide⟩
      · exact ⟨hs, ht, hf, hsn⟩
    obtain ⟨hs, ht, hf, hsn⟩ := hfin
    split_ifs <;>
      (simp only [handshake_after_append, ht, Option.some_bind]
       simp [handshake_after, hf, hsn])
  · intro htgt hopen hwrite
    have hctl : first_control h src tgt ≠ -1 := hopen _ _ _ _
    rw [session_success_trace h linux2hid src tgt input htgt hopen hwrite, List.append_assoc,
      handshake_after_append]
    have hop : handshake_after handshake_start
        (opening_calls (first_control h src tgt) (first_intr h src tgt)) =
        some { control_open := [first_control h src tgt], first := 1, second := 1,
               reports := 0 } := by
      simp [opening_calls, handshake_after, handshake_start, hctl, psm_intr_ne_ctrl]
    rw [hop, Option.some_bind]
    have hq := report_calls_quiet linux2hid (stream_events input) initial_status
      (first_intr h src tgt) [first_control h src tgt, first_intr h src tgt]
    obtain ⟨hs2, ht2, hf2, hs2'⟩ := handshake_after_quiet _ hq
      { control_open := [first_control h src tgt], first := 1, second := 1, reports := 0 }
    exact ⟨hs2, ht2, hf2, hs2'⟩

theorem C14_handshake_once_before_reports_witness :
    (1 : Nat) ≠ BDADDR_ANY ∧
    ∃ hs, handshake_after handshake_start
        (session good_host sample_linux2hid 0 1 [72, 105]).trace = some hs ∧
      hs.first = 1 ∧ hs.second = 1 :=
  ⟨by decide,
   (C14_handshake_once_before_reports good_host sample_linux2hid 0 1 [72, 105]).2 (by decide)
     good_host_opens good_host_writes⟩

/-! ## Claims on pacing and on short writes -/

theorem report_delays_paced (intr : Int) (closes : List Int) (rs : List (List Nat)) :
    (∀ r ∈ rs, is_handshake r = false) →
      report_delays [] (paced_writes intr rs ++ closes.map io_call.close) =
        List.replicate rs.length [200000] := by
  induction rs with
  | nil =>
    intro _
    induction closes with
    | nil => rfl
    | cons c cs ih => simpa [paced_writes, report_delays] using ih
  | cons r rs ih =>
    intro hr
    have h1 := hr r (List.mem_cons_self r rs)
    have h2 := ih (fun x hx => hr x (List.mem_cons_of_mem r hx))
    have e : paced_writes intr (r :: rs) =
        io_call.usleep 200000 :: io_call.write intr r (r.length : Int) ::
          paced_writes intr rs := by
      simp [paced_writes]
    rw [e, List.cons_append, List.cons_append]
    simp only [report_delays, h1, List.nil_append, Bool.false_eq_true, if_false, h2,
      List.length_cons, List.replicate_succ]

/-- C15: in a session whose target is set and in which every open and write
succeeds, no `usleep` precedes the first report write and exactly one
`usleep (200000)` lies between each later report write and the write before
it: the sleeps before the reports are none, 200 ms, 200 ms, and so on, one
entry per event of the stream. -/
theorem C15_pacing (h : host) (linux2hid : Nat → Nat) (src tgt : Nat)
    (input : List Int) (htgt : tgt ≠ BDADDR_ANY)
    (hopen : ∀ t s d p, h.l2cap_connect t s d p ≠ -1)
    (hwrite : ∀ t fd buf, h.write t fd buf = (buf.length : Int)) :
    report_delays [] (session h linux2hid src tgt input).trace =
      [] :: List.replicate ((stream_events input).length - 1) [200000] ∧
    0 < (stream_events input).length := by
  have hlen : (snapshots linux2hid initial_status (stream_events input)).length =
      (stream_events input).length := snapshots_length linux2hid _ _
  have hrep : ∀ r ∈ snapshots linux2hid initial_status (stream_events input),
      is_handshake r = false := by
    intro r hr
    obtain ⟨kr, rfl⟩ := snapshots_mem linux2hid _ _ r hr
    exact report_not_handshake kr
  have hpos : 0 < (stream_events input).length := by
    rw [stream_events_eq]; simp
  refine ⟨?_, hpos⟩
  rw [session_success_trace h linux2hid src tgt input htgt hopen hwrite]
  cases hs : snapshots linux2hid initial_status (stream_events input) with
  | nil => rw [hs] at hlen; simp at hlen; omega
  | cons r rs =>
    rw [hs] at hlen hrep
    have hr := hrep r (List.mem_cons_self r rs)
    have hrs := report_delays_paced (first_intr h src tgt)
      [first_control h src tgt, first_intr h src tgt] rs
      (fun x hx => hrep x (List.mem_cons_of_mem r hx))
    simp only [List.map_cons, List.map_nil] at hrs
    have hn : (stream_events input).length - 1 = rs.length := by
      rw [← hlen]; simp
    rw [hn]
    have hh1 : is_handshake [0xa1, 0x13, 0x03] = true := by decide
    have hh2 : is_handshake [0xa1, 0x13, 0x02] = true := by decide
    simp only [opening_calls, report_calls, List.cons_append, List.nil_append, report_delays,
      hh1, hh2, if_true, hr, Bool.false_eq_true, if_false, List.append_assoc]
    exact congrArg (List.cons []) hrs

theorem C15_pacing_witness :
    (1 : Nat) ≠ BDADDR_ANY ∧
    report_delays [] (session good_host sample_linux2hid 0 1 [72, 105]).trace =
      [] :: List.replicate ((stream_events [72, 105]).length - 1) [200000] :=
  ⟨by decide,
   (C15_pacing good_host sample_linux2hid 0 1 [72, 105] (by decide) good_host_opens
      good_host_writes).1⟩

theorem key_loop_length (code : Nat) (value : Int) (n : Nat) :
    ∀ key : List Nat, (key_loop code value n key).length = key.length := by
  induction n with
  | zero => intro key; rfl
  | succ n ih =>
    intro key
    rw [key_loop]
    simp only []
    split_ifs <;> simp [ih, List.length_set]

theorem input_event_key_length (linux2hid : Nat → Nat) (st : status) (ev : input_event_t)
    (ctrl intr : Int) :
    (input_event linux2hid st ev ctrl intr).2.report.key.length = st.report.key.length := by
  unfold input_event
  simp only []
  split_ifs <;> simp only [key_loop_length]

set_option maxRecDepth 100000 in
/-- C19 at a failing input: the target is set, the payload is "Hi", the
opens and the handshake succeed and the first report write is short (5 of
the 10 bytes of the report). The `<= 0` test takes it for a success: the
event loop goes on, the release event of the same character is applied and
its report is written next, and the run has the 62 calls of a run without
any failure. The sibling writes in `hello` are tested with `!= 3`: there a
short write (2 of 3 bytes) makes `hello` return -1 after that one write. -/
theorem C19_short_write_goes_on :
    (session first_report_short sample_linux2hid 0 1 [72, 105]).trace.take 8 =
      [io_call.l2cap_connect L2CAP_PSM_HIDP_CTRL 3,
       io_call.l2cap_connect L2CAP_PSM_HIDP_INTR 4,
       io_call.write 3 [0xa1, 0x13, 0x03] 3,
       io_call.write 3 [0xa1, 0x13, 0x02] 3,
       io_call.sleep 1,
       io_call.write 4 [0xa1, 0x01, 0, 0, 42, 0, 0, 0, 0, 0] 5,
       io_call.usleep 200000,
       io_call.write 4 [0xa1, 0x01, 0, 0, 0, 0, 0, 0, 0, 0] 10] ∧
    (session first_report_short sample_linux2hid 0 1 [72, 105]).trace.length = 62 ∧
    (session first_report_short sample_linux2hid 0 1 [72, 105]).trace.length =
      (session good_host sample_linux2hid 0 1 [72, 105]).trace.length ∧
    hello every_write_short 3 [] = (-1, [io_call.write 3 [0xa1, 0x13, 0x03] 2]) := by
  decide

end Btkbdd
